import Mathlib

/-!
Verification of the dice-gambling server core (`src/models.py`, `src/game_engine.py`)
against its natural-language specification.

Modelling conventions:
* Python `dict` (insertion ordered) is an association list `List (Nat × α)`;
  `dictGet`/`dictSet`/`dictPop` mirror `d.get`, `d[k] = v`, `d.pop(k, None)`.
* Opaque string identifiers (uuid4 round ids, bet ids, session tokens) are `Nat`;
  freshness of a uuid is a hypothesis where a proof needs it.
* Wall-clock time is a `Nat` number of seconds; `datetime.now()` becomes an explicit
  `now` argument.  Timestamp fields that no claim observes (`created_at`,
  `Room.last_activity`, `BetData.created_at`, `GameRound.finished_at`) are omitted.
* Python integers are `Int` (balances, amounts, dice faces, jackpot pools), so
  negativity is representable and non-negativity is a real theorem.
* `bcrypt.checkpw(password, hash)` is modelled abstractly as equality of the
  submitted password with the stored secret carried in `password_hash`.
* Python truthiness on `user.current_room` (`if user.current_room:`) is modelled
  by the explicit test `cr ≠ 0` on `some cr`.
* Object mutation through shared references is modelled by threading the dict key
  of the mutated object and writing the updated value back at that key.
-/

namespace DiceGame

/-! ## Association-list model of Python dicts -/

/-- `d.get(k)`: value at the first occurrence of key `k`. -/
def dictGet {α : Type} (k : Nat) : List (Nat × α) → Option α
  | [] => none
  | (k', v) :: t => if k' = k then some v else dictGet k t

/-- `d[k] = v`: replace the first occurrence of key `k`, else append. -/
def dictSet {α : Type} (k : Nat) (v : α) : List (Nat × α) → List (Nat × α)
  | [] => [(k, v)]
  | (k', v') :: t => if k' = k then (k, v) :: t else (k', v') :: dictSet k v t

/-- `d.pop(k, None)`: drop the first occurrence of key `k`. -/
def dictPop {α : Type} (k : Nat) : List (Nat × α) → List (Nat × α)
  | [] => []
  | (k', v') :: t => if k' = k then t else (k', v') :: dictPop k t

/-! ## Domain model (`src/models.py`) -/

/-- `GameRoundStatus` enum from `models.py`. -/
inductive GameRoundStatus
  | NO_ACTIVE_ROUND
  | BETTING_PHASE
  | WAITING_RESULTS
deriving DecidableEq, Repr

/-- `User` dataclass (timestamp `created_at` omitted; `last_activity` kept in seconds). -/
structure User where
  user_id : Nat
  username : String
  password_hash : String
  balance : Int
  session_token : Option Nat := none
  last_activity : Nat := 0
  current_room : Option Nat := none
deriving DecidableEq, Repr

/-- `bcrypt.checkpw` modelled abstractly: the stored hash verifies exactly the
stored secret. -/
def User.verify_password (u : User) (password : String) : Bool :=
  u.password_hash = password

/-- `User.generate_session_token`: install a fresh token and stamp activity. -/
def User.generate_session_token (u : User) (fresh now : Nat) : User :=
  { u with session_token := some fresh, last_activity := now }

/-- `User.is_session_expired` with the default `timeout_seconds = 1800`. -/
def User.is_session_expired (u : User) (now : Nat) : Bool :=
  match u.session_token with
  | none => true
  | some _ => decide (1800 < now - u.last_activity)

/-- `Room` dataclass (timestamps omitted; the player set is a duplicate-free list). -/
structure Room where
  room_id : Nat
  name : String
  max_capacity : Nat := 50
  current_players : List Nat := []
  jackpot_pool : Int := 0
deriving DecidableEq, Repr

/-- `Room.add_player`: refuse at capacity, else add to the set. -/
def Room.add_player (r : Room) (uid : Nat) : Bool × Room :=
  if r.max_capacity ≤ r.current_players.length then (false, r)
  else (true, { r with current_players :=
    if uid ∈ r.current_players then r.current_players else r.current_players ++ [uid] })

/-- `Room.remove_player`: `set.discard`. -/
def Room.remove_player (r : Room) (uid : Nat) : Room :=
  { r with current_players := r.current_players.filter (fun x => x ≠ uid) }

/-- `BetData` dataclass (timestamp omitted). -/
structure BetData where
  bet_id : Nat
  user_id : Nat
  round_id : Nat
  dice_face : Int
  amount : Int
  won : Option Bool := none
  payout : Option Int := none
deriving DecidableEq, Repr

/-- `GameRound` dataclass (timestamps omitted). -/
structure GameRound where
  round_id : Nat
  user_id : Nat
  room_id : Nat
  bets : List BetData := []
  status : GameRoundStatus := .BETTING_PHASE
  dice_result : Option Int := none
  total_winnings : Int := 0
deriving DecidableEq, Repr

/-- `GameRound.add_bet`. -/
def GameRound.add_bet (r : GameRound) (b : BetData) : GameRound :=
  { r with bets := r.bets ++ [b] }

/-- `GameRound.finish_betting`. -/
def GameRound.finish_betting (r : GameRound) : GameRound :=
  { r with status := .WAITING_RESULTS }

/-- One loop iteration of `GameRound.calculate_results`: mark a bet won or lost
and record its payout (`amount * 6` on a win, else `0`). -/
def settleBet (dice : Int) (b : BetData) : BetData :=
  { b with won := some (b.dice_face == dice),
           payout := some (if b.dice_face == dice then b.amount * 6 else 0) }

/-- Payout contributed by one bet in `GameRound.calculate_results`. -/
def betPayout (dice : Int) (b : BetData) : Int :=
  if b.dice_face == dice then b.amount * 6 else 0

/-- `GameRound.calculate_results`: settle every bet, sum payouts, record the dice
and the total; returns `(total_winnings, updated round)`. -/
def GameRound.calculate_results (r : GameRound) (dice : Int) : Int × GameRound :=
  let total := (r.bets.map (betPayout dice)).foldl (· + ·) 0
  (total,
   { r with dice_result := some dice,
            bets := r.bets.map (settleBet dice),
            total_winnings := total })

/-! ## State store (`GameState` in `src/models.py`) -/

/-- `GameState`: users, rooms and active rounds by id (connection maps carry no
game data relevant to the claims and are omitted). -/
structure GameState where
  users : List (Nat × User)
  rooms : List (Nat × Room)
  active_rounds : List (Nat × GameRound)
deriving DecidableEq, Repr

/-- The ten default rooms built by `_initialize_default_rooms`. -/
def defaultRooms : List (Nat × Room) :=
  (List.range 10).map (fun i =>
    (i + 1, { room_id := i + 1, name := "Room " ++ toString (i + 1), max_capacity := 50 }))

/-- The five default users built by `_initialize_default_users`, each with
balance 1000. -/
def defaultUsers : List (Nat × User) :=
  [ (1, { user_id := 1, username := "testuser1", password_hash := "password123", balance := 1000 }),
    (2, { user_id := 2, username := "testuser2", password_hash := "password123", balance := 1000 }),
    (3, { user_id := 3, username := "alice", password_hash := "alicepass", balance := 1000 }),
    (4, { user_id := 4, username := "bob", password_hash := "bobpass", balance := 1000 }),
    (5, { user_id := 5, username := "charlie", password_hash := "charliepass", balance := 1000 }) ]

/-- The seeded state produced by `GameState.__init__`. -/
def initState : GameState :=
  { users := defaultUsers, rooms := defaultRooms, active_rounds := [] }

/-- The room list after the leave-current-room block at the top of
`GameState.join_room` (and the body of `leave_room`). -/
def leaveCurrentRooms (s : GameState) (user : User) (uid : Nat) : List (Nat × Room) :=
  match user.current_room with
  | none => s.rooms
  | some cr =>
    if cr = 0 then s.rooms
    else
      match dictGet cr s.rooms with
      | some croom => dictSet cr (croom.remove_player uid) s.rooms
      | none => s.rooms

/-- `GameState.join_room`: leave the current room first, then try to join; the
target room object is re-read after the leave step (Python mutates one shared
object when the two rooms coincide). -/
def GameState.join_room (s : GameState) (uid rid : Nat) : Bool × GameState :=
  match dictGet uid s.users, dictGet rid s.rooms with
  | some user, some room =>
    let rooms1 := leaveCurrentRooms s user uid
    let room1 := (dictGet rid rooms1).getD room
    match room1.add_player uid with
    | (true, room2) =>
      (true, { s with rooms := dictSet rid room2 rooms1,
                      users := dictSet uid { user with current_room := some rid } s.users })
    | (false, _) => (false, { s with rooms := rooms1 })
  | _, _ => (false, s)

/-- `GameState.leave_room`. -/
def GameState.leave_room (s : GameState) (uid : Nat) : GameState :=
  match dictGet uid s.users with
  | none => s
  | some user =>
    match user.current_room with
    | none => s
    | some cr =>
      if cr = 0 then s
      else
        let rooms1 :=
          match dictGet cr s.rooms with
          | some room => dictSet cr (room.remove_player uid) s.rooms
          | none => s.rooms
        { s with rooms := rooms1,
                 users := dictSet uid { user with current_room := none } s.users }

/-- The loop body of `GameState.authenticate_user`: scan users in dict order for
the first entry whose username and password match; reject if it holds a live
session, else issue a fresh token.  Returns the loop result together with the
updated user list, or `none` when the loop fell through. -/
def authScan (username password : String) (now fresh : Nat) :
    List (Nat × User) → Option (Option User × List (Nat × User))
  | [] => none
  | (k, u) :: t =>
    if u.username = username ∧ u.verify_password password then
      if u.session_token.isSome ∧ ¬ u.is_session_expired now then
        some (none, (k, u) :: t)
      else
        let u' := u.generate_session_token fresh now
        some (some u', (k, u') :: t)
    else
      match authScan username password now fresh t with
      | some (r, t') => some (r, (k, u) :: t')
      | none => none

/-- The per-user test of the authentication loop: username match plus password
verification. -/
def authMatch (username password : String) (p : Nat × User) : Bool :=
  decide (p.2.username = username ∧ p.2.verify_password password = true)

/-- `GameState.authenticate_user` (the `fresh` uuid and `now` injected). -/
def GameState.authenticate_user (s : GameState) (username password : String)
    (now fresh : Nat) : Option User × GameState :=
  match authScan username password now fresh s.users with
  | some (r, users1) => (r, { s with users := users1 })
  | none => (none, s)

/-- Predicate of the active-round scans: a BETTING-phase round owned by `uid`. -/
def isBettingOf (uid : Nat) (p : Nat × GameRound) : Bool :=
  decide (p.2.user_id = uid ∧ p.2.status = GameRoundStatus.BETTING_PHASE)

/-- `GameState.create_game_round`: requires the user to be in a room; returns an
existing BETTING round of the user if one is indexed, else inserts a fresh
round (uuid injected as `fresh`).  The key of the returned round is carried
along (it is where later object mutations write back). -/
def GameState.create_game_round (s : GameState) (uid fresh : Nat) :
    Option (Nat × GameRound) × GameState :=
  match dictGet uid s.users with
  | none => (none, s)
  | some user =>
    match user.current_room with
    | none => (none, s)
    | some cr =>
      if cr = 0 then (none, s)
      else
        match s.active_rounds.find? (isBettingOf uid) with
        | some p => (some p, s)
        | none =>
          let r : GameRound := { round_id := fresh, user_id := uid, room_id := cr }
          (some (fresh, r), { s with active_rounds := dictSet fresh r s.active_rounds })

/-- `GameState.finish_game_round`: drop the round from the active index. -/
def GameState.finish_game_round (s : GameState) (rid : Nat) : GameState :=
  { s with active_rounds := dictPop rid s.active_rounds }

/-! ## Game engine (`src/game_engine.py`) -/

/-- Outcome of the scan loop at the top of `GameEngine.get_or_create_active_round`:
either an existing BETTING round is returned as-is, or a round holding at least
9 bets was eagerly finished (the loop `break`s with the index updated), or no
BETTING round of the user exists. -/
inductive ScanOut
  | ret (k : Nat) (r : GameRound)
  | rolled (rounds : List (Nat × GameRound))
  | missing
deriving DecidableEq, Repr

/-- The scan loop of `GameEngine.get_or_create_active_round` over the active
round index in insertion order. -/
def scanBetting (uid : Nat) : List (Nat × GameRound) → ScanOut
  | [] => .missing
  | (k, r) :: t =>
    if isBettingOf uid (k, r) then
      if 9 ≤ r.bets.length then .rolled ((k, r.finish_betting) :: t)
      else .ret k r
    else
      match scanBetting uid t with
      | .rolled t' => .rolled ((k, r) :: t')
      | .ret k' r' => .ret k' r'
      | .missing => .missing

/-- `GameEngine.get_or_create_active_round`. -/
def get_or_create_active_round (s : GameState) (uid fresh : Nat) :
    Option (Nat × GameRound) × GameState :=
  match scanBetting uid s.active_rounds with
  | .ret k r => (some (k, r), s)
  | .rolled rounds1 =>
    GameState.create_game_round { s with active_rounds := rounds1 } uid fresh
  | .missing => GameState.create_game_round s uid fresh

/-- Tail of `GameEngine.place_bet` once a round object (at index key `k`) has
been resolved: status and capacity checks, then the debit and the append. -/
def placeBetFinish (s : GameState) (user : User) (uid : Nat)
    (dice_face amount : Int) (k : Nat) (r : GameRound) (freshBet : Nat) :
    (Bool × String × Option Nat) × GameState :=
  if r.status ≠ GameRoundStatus.BETTING_PHASE then
    ((false, "Betting phase has ended", none), s)
  else if 10 ≤ r.bets.length then
    ((false, "Maximum bets per round exceeded", none), s)
  else
    let bet : BetData := { bet_id := freshBet, user_id := uid, round_id := r.round_id,
                           dice_face := dice_face, amount := amount }
    ((true, "Bet placed successfully", some freshBet),
     { s with users := dictSet uid { user with balance := user.balance - amount } s.users,
              active_rounds := dictSet k (r.add_bet bet) s.active_rounds })

/-- `GameEngine.place_bet` (uuids for the possibly-created round and the bet are
injected as `freshRound` and `freshBet`). -/
def place_bet (s : GameState) (uid : Nat) (dice_face amount : Int)
    (round_id : Option Nat) (freshRound freshBet : Nat) :
    (Bool × String × Option Nat) × GameState :=
  match dictGet uid s.users with
  | none => ((false, "User not found", none), s)
  | some user =>
    if dice_face < 1 ∨ 6 < dice_face then
      ((false, "Invalid dice face (must be 1-6)", none), s)
    else if amount < 1 ∨ 1000 < amount then
      ((false, "Invalid bet amount (1-1000)", none), s)
    else if user.balance < amount then
      ((false, "Insufficient balance", none), s)
    else
      match round_id with
      | some rid =>
        match dictGet rid s.active_rounds with
        | none => ((false, "Invalid round", none), s)
        | some r =>
          if r.user_id ≠ uid then ((false, "Invalid round", none), s)
          else placeBetFinish s user uid dice_face amount rid r freshBet
      | none =>
        match get_or_create_active_round s uid freshRound with
        | (none, s1) => ((false, "Failed to create game round", none), s1)
        | (some (k, r), s1) => placeBetFinish s1 user uid dice_face amount k r freshBet

/-- `GameEngine.finish_betting`. -/
def finish_betting (s : GameState) (uid rid : Nat) : (Bool × String) × GameState :=
  match dictGet rid s.active_rounds with
  | none => ((true, "Round already processed"), s)
  | some r =>
    if r.user_id ≠ uid then ((false, "Round does not belong to user"), s)
    else if r.status ≠ GameRoundStatus.BETTING_PHASE then
      if r.status = GameRoundStatus.WAITING_RESULTS then
        ((true, "Round already finished"), s)
      else ((false, "Round is not in betting phase"), s)
    else if r.bets.isEmpty then ((false, "No bets placed in current round"), s)
    else ((true, "Betting phase completed"),
          { s with active_rounds := dictSet rid r.finish_betting s.active_rounds })

/-! ### IEEE-754 model of the jackpot contribution

`GameEngine.calculate_results` computes `int(total_bet_amount * 0.01)` in Python
floats (binary64).  The double nearest `0.01` is exactly
`5764607523034235 × 2⁻⁵⁹`.  For `0 ≤ S < 2⁵³` the conversion of `S` to double is
exact, so the product is the round-to-nearest-even of `S × 5764607523034235 / 2⁵⁹`
to 53 significant bits, and `int` truncates toward zero.  Every reachable sum of
bet amounts is at most `10 × 1000`, far below `2⁵³`. -/

/-- Significand of `0.01` as a binary64 value: `0.01 = 5764607523034235 × 2⁻⁵⁹`. -/
def centMantissa : Nat := 5764607523034235

/-- Fueled binary length: `bitLenAux fuel n` is the bit length of `n` whenever
`n < 2 ^ fuel` (structural recursion so that proofs can evaluate it). -/
def bitLenAux : Nat → Nat → Nat
  | 0, _ => 0
  | fuel + 1, n => if n = 0 then 0 else bitLenAux fuel (n / 2) + 1

/-- Bit length, exact for arguments below `2¹²⁸` (ample for every product
appearing in the jackpot computation). -/
def bitLen (n : Nat) : Nat := bitLenAux 128 n

/-- Truncated value of the binary64 product `S * 0.01` for a natural `S < 2⁵³`:
round the exact product `S × centMantissa / 2⁵⁹` to 53 significant bits
(nearest, ties to even), then truncate. -/
def roundMulNat (S : Nat) : Nat :=
  let P := S * centMantissa
  if P = 0 then 0
  else
    let B := bitLen P
    if B ≤ 53 then P >>> 59
    else
      let shift := B - 53
      let q := P >>> shift
      let r := P % (2 ^ shift)
      let half := 2 ^ (shift - 1)
      let q' := if half < r ∨ (r = half ∧ q % 2 = 1) then q + 1 else q
      if 59 ≤ shift then q' <<< (shift - 59) else q' >>> (59 - shift)

/-- `int(x * 0.01)` of Python on an integer `x` with `|x| < 2⁵³`: the binary64
product is symmetric in sign and `int` truncates toward zero. -/
def jackpotCut (x : Int) : Int :=
  if x < 0 then -(roundMulNat x.natAbs : Int) else (roundMulNat x.natAbs : Int)

/-- Per-bet entry of the results dict built by `GameEngine.calculate_results`. -/
structure BetResult where
  bet_id : Nat
  dice_face : Int
  bet_amount : Int
  won : Option Bool
  payout : Option Int
deriving DecidableEq, Repr

/-- The results dict returned by `GameEngine.calculate_results`. -/
structure RoundResults where
  dice_result : Int
  bet_results : List BetResult
  total_winnings : Int
  new_balance : Int
  jackpot_pool : Int
deriving DecidableEq, Repr

/-- Sum of the bet amounts of a round (`sum(bet.amount for bet in bets)`). -/
def betSum (bets : List BetData) : Int :=
  bets.foldl (fun acc b => acc + b.amount) 0

/-- `GameEngine.calculate_results` (the dice roll injected as `dice`):
settle the round, credit the user, accrue the jackpot, build the results dict,
and drop the round from the active index. -/
def calculate_results (s : GameState) (uid rid : Nat) (dice : Int) :
    (Bool × String × Option RoundResults) × GameState :=
  match dictGet rid s.active_rounds with
  | none =>
    ((true, "Results already calculated",
      some { dice_result := 3, bet_results := [], total_winnings := 0,
             new_balance := 0, jackpot_pool := 0 }), s)
  | some r0 =>
    if r0.user_id ≠ uid then ((false, "Round does not belong to user", none), s)
    else if r0.status ≠ GameRoundStatus.WAITING_RESULTS ∧
            r0.status ≠ GameRoundStatus.BETTING_PHASE then
      ((false, "Round is not in correct state for results", none), s)
    else
      let r1 := if r0.status = GameRoundStatus.BETTING_PHASE then r0.finish_betting else r0
      let out := r1.calculate_results dice
      let total := out.1
      let r2 := out.2
      let userOpt := dictGet uid s.users
      let users1 :=
        match userOpt with
        | some u => dictSet uid { u with balance := u.balance + total } s.users
        | none => s.users
      let S := betSum r2.bets
      let crOpt : Option Nat :=
        match userOpt with
        | some u =>
          match u.current_room with
          | some cr => if cr = 0 then none else some cr
          | none => none
        | none => none
      let roomOpt : Option Room :=
        match crOpt with
        | some cr => dictGet cr s.rooms
        | none => none
      let rooms1 :=
        match crOpt, roomOpt with
        | some cr, some room =>
          dictSet cr { room with jackpot_pool := room.jackpot_pool + jackpotCut S } s.rooms
        | _, _ => s.rooms
      let newBal : Int :=
        match userOpt with
        | some u => u.balance + total
        | none => 0
      let jackField : Int :=
        match crOpt, roomOpt with
        | some _, some room => room.jackpot_pool + jackpotCut S
        | _, _ => 0
      ((true, "Results calculated successfully",
        some { dice_result := dice,
               bet_results := r2.bets.map (fun b =>
                 { bet_id := b.bet_id, dice_face := b.dice_face, bet_amount := b.amount,
                   won := b.won, payout := b.payout }),
               total_winnings := total,
               new_balance := newBal,
               jackpot_pool := jackField }),
       { s with users := users1, rooms := rooms1,
                active_rounds := dictPop rid s.active_rounds })

/-! ## Session invalidation (`GameState.remove_connection`, token part) -/

/-- The session-invalidation step of `GameState.remove_connection`
(`user.session_token = None`); the accompanying `leave_room` is a separate
operation of the step relation. -/
def clearSession (s : GameState) (uid : Nat) : GameState :=
  match dictGet uid s.users with
  | some u => { s with users := dictSet uid { u with session_token := none } s.users }
  | none => s

/-! ## Invariants and the operation step relation -/

/-- Every stored user balance is non-negative. -/
def balancesOK (s : GameState) : Prop := ∀ p ∈ s.users, 0 ≤ p.2.balance

/-- Every bet stored in the active-round index has an amount in the validated
range lower end (`1 ≤ amount`). -/
def amountsOK (s : GameState) : Prop := ∀ p ∈ s.active_rounds, ∀ b ∈ p.2.bets, 1 ≤ b.amount

/-- Two index entries may not both be BETTING rounds of the same user. -/
def bettingRel (p q : Nat × GameRound) : Prop :=
  ¬ (p.2.user_id = q.2.user_id ∧ p.2.status = GameRoundStatus.BETTING_PHASE ∧
     q.2.status = GameRoundStatus.BETTING_PHASE)

/-- At most one BETTING round per user across the active-round index. -/
def oneBetting (s : GameState) : Prop := s.active_rounds.Pairwise bettingRel

/-- The active-round index has no duplicate keys (a `dict` property). -/
def roundKeysOK (s : GameState) : Prop := (s.active_rounds.map Prod.fst).Nodup

/-- The inductive invariant carried through every operation. -/
def Inv (s : GameState) : Prop := balancesOK s ∧ amountsOK s ∧ oneBetting s ∧ roundKeysOK s

/-- One observable operation of the store or the engine.  The uuid arguments of
round-creating operations come with the freshness guarantee of `uuid4`. -/
inductive Step : GameState → GameState → Prop
  | join_room (uid rid : Nat) (s : GameState) : Step s (s.join_room uid rid).2
  | leave_room (uid : Nat) (s : GameState) : Step s (s.leave_room uid)
  | authenticate (username password : String) (now fresh : Nat) (s : GameState) :
      Step s (s.authenticate_user username password now fresh).2
  | clear_session (uid : Nat) (s : GameState) : Step s (clearSession s uid)
  | create_round (uid fresh : Nat) (s : GameState)
      (hfresh : dictGet fresh s.active_rounds = none) :
      Step s (s.create_game_round uid fresh).2
  | finish_round (rid : Nat) (s : GameState) : Step s (s.finish_game_round rid)
  | place (uid : Nat) (face amount : Int) (orid : Option Nat) (frR frB : Nat)
      (s : GameState) (hfresh : dictGet frR s.active_rounds = none) :
      Step s (place_bet s uid face amount orid frR frB).2
  | finishBetting (uid rid : Nat) (s : GameState) : Step s (finish_betting s uid rid).2
  | settle (uid rid : Nat) (d : Int) (s : GameState) : Step s (calculate_results s uid rid d).2

/-- States reachable from the seeded initial state by engine and store operations. -/
inductive Reachable : GameState → Prop
  | init : Reachable initState
  | step {s t : GameState} : Reachable s → Step s t → Reachable t

/-! ## Concrete states used by witnesses and counterexamples -/

/-- A plain bet used to populate concrete rounds. -/
def mkBet (i : Nat) (face amt : Int) : BetData :=
  { bet_id := i, user_id := 1, round_id := 9, dice_face := face, amount := amt }

/-- A state whose user 7 sits in room 1 while room 2 is at capacity. -/
def cexJoin : GameState :=
  { users := [(7, { user_id := 7, username := "u7", password_hash := "p", balance := 0,
                    current_room := some 1 })],
    rooms := [(1, { room_id := 1, name := "Room 1", max_capacity := 50,
                    current_players := [7] }),
              (2, { room_id := 2, name := "Room 2", max_capacity := 50,
                    current_players := (List.range 50).map (fun i => i + 100) })],
    active_rounds := [] }

/-- A state holding one settled-phase (WAITING_RESULTS) round of user 1. -/
def sWait : GameState :=
  { users := defaultUsers, rooms := defaultRooms,
    active_rounds := [(9, { round_id := 9, user_id := 1, room_id := 1,
                            bets := [mkBet 70 3 100],
                            status := GameRoundStatus.WAITING_RESULTS })] }

/-- A state whose user 1 is in room 1 with a BETTING round holding nine bets. -/
def sNine : GameState :=
  { users := [(1, { user_id := 1, username := "testuser1", password_hash := "password123",
                    balance := 1000, current_room := some 1 })],
    rooms := defaultRooms,
    active_rounds := [(9, { round_id := 9, user_id := 1, room_id := 1,
                            bets := (List.range 9).map (fun i => mkBet (20 + i) 2 10),
                            status := GameRoundStatus.BETTING_PHASE })] }

/-- A state whose user 1 is in room 1 with a WAITING_RESULTS round ready to
settle (one bet of 100 on face 3). -/
def sSettle : GameState :=
  { users := [(1, { user_id := 1, username := "testuser1", password_hash := "password123",
                    balance := 900, current_room := some 1 })],
    rooms := defaultRooms,
    active_rounds := [(9, { round_id := 9, user_id := 1, room_id := 1,
                            bets := [mkBet 70 3 100],
                            status := GameRoundStatus.WAITING_RESULTS })] }

/-- A state whose only user holds a live session token issued at time 0. -/
def sLive : GameState :=
  { users := [(1, { user_id := 1, username := "testuser1", password_hash := "password123",
                    balance := 1000, session_token := some 55, last_activity := 0 })],
    rooms := defaultRooms, active_rounds := [] }

/-- `sLive` after the token was cleared (disconnect/logout). -/
def sFree : GameState :=
  { users := [(1, { user_id := 1, username := "testuser1", password_hash := "password123",
                    balance := 1000, session_token := none, last_activity := 0 })],
    rooms := defaultRooms, active_rounds := [] }

/-! ## Lemmas about the dict model -/

theorem dictGet_dictSet_self {α : Type} (k : Nat) (v : α) (l : List (Nat × α)) :
    dictGet k (dictSet k v l) = some v := by
  induction l with
  | nil => simp [dictGet, dictSet]
  | cons h t ih =>
    obtain ⟨k', v'⟩ := h
    by_cases hk : k' = k
    · simp [dictGet, dictSet, hk]
    · simp [dictGet, dictSet, hk, ih]

theorem dictGet_dictSet_ne {α : Type} {k k' : Nat} (v : α) (l : List (Nat × α))
    (h : k' ≠ k) : dictGet k' (dictSet k v l) = dictGet k' l := by
  induction l with
  | nil => simp [dictGet, dictSet, Ne.symm h]
  | cons hd t ih =>
    obtain ⟨k'', v''⟩ := hd
    by_cases hk : k'' = k
    · subst hk
      simp [dictGet, dictSet, Ne.symm h]
    · simp only [dictSet, if_neg hk, dictGet]
      by_cases hk2 : k'' = k'
      · simp [hk2]
      · simp [hk2, ih]

theorem mem_dictSet {α : Type} {k : Nat} {v : α} {l : List (Nat × α)}
    {p : Nat × α} (h : p ∈ dictSet k v l) : p = (k, v) ∨ p ∈ l := by
  induction l with
  | nil => simpa [dictSet] using h
  | cons hd t ih =>
    obtain ⟨k', v'⟩ := hd
    by_cases hk : k' = k
    · simp only [dictSet, if_pos hk, List.mem_cons] at h
      rcases h with h | h
      · exact Or.inl h
      · exact Or.inr (List.mem_cons_of_mem _ h)
    · simp only [dictSet, if_neg hk, List.mem_cons] at h
      rcases h with h | h
      · exact Or.inr (h ▸ List.mem_cons_self _ _)
      · rcases ih h with h' | h'
        · exact Or.inl h'
        · exact Or.inr (List.mem_cons_of_mem _ h')

theorem dictGet_mem {α : Type} {k : Nat} {v : α} {l : List (Nat × α)}
    (h : dictGet k l = some v) : (k, v) ∈ l := by
  induction l with
  | nil => simp [dictGet] at h
  | cons hd t ih =>
    obtain ⟨k', v'⟩ := hd
    by_cases hk : k' = k
    · subst hk
      simp only [dictGet] at h
      simp only [if_pos trivial, Option.some.injEq] at h
      subst h
      exact List.mem_cons_self _ _
    · simp only [dictGet, if_neg hk] at h
      exact List.mem_cons_of_mem _ (ih h)

theorem dictSet_of_absent {α : Type} {k : Nat} (v : α) {l : List (Nat × α)}
    (h : dictGet k l = none) : dictSet k v l = l ++ [(k, v)] := by
  induction l with
  | nil => simp [dictSet]
  | cons hd t ih =>
    obtain ⟨k', v'⟩ := hd
    by_cases hk : k' = k
    · simp [dictGet, hk] at h
    · simp only [dictGet, if_neg hk] at h
      simp [dictSet, if_neg hk, ih h]

theorem dictGet_none_iff {α : Type} {k : Nat} {l : List (Nat × α)} :
    dictGet k l = none ↔ k ∉ l.map Prod.fst := by
  induction l with
  | nil => simp [dictGet]
  | cons hd t ih =>
    obtain ⟨k', v'⟩ := hd
    by_cases hk : k' = k
    · simp [dictGet, hk]
    · simp [dictGet, hk, ih, Ne.symm hk]

theorem dictPop_sublist {α : Type} (k : Nat) (l : List (Nat × α)) :
    (dictPop k l).Sublist l := by
  induction l with
  | nil => simp [dictPop]
  | cons hd t ih =>
    obtain ⟨k', v'⟩ := hd
    by_cases hk : k' = k
    · simp only [dictPop, if_pos hk]
      exact List.sublist_cons_self _ _
    · simpa [dictPop, hk] using List.Sublist.cons₂ (k', v') ih

theorem keys_dictSet_of_mem {α : Type} {k : Nat} {r v : α} {l : List (Nat × α)}
    (h : dictGet k l = some r) :
    (dictSet k v l).map Prod.fst = l.map Prod.fst := by
  induction l with
  | nil => simp [dictGet] at h
  | cons hd t ih =>
    obtain ⟨k', v'⟩ := hd
    by_cases hk : k' = k
    · simp [dictSet, hk]
    · simp only [dictGet, if_neg hk] at h
      simp [dictSet, if_neg hk, ih h]

theorem nodup_keys_dictGet {α : Type} {k : Nat} {v : α} {l : List (Nat × α)}
    (hnd : (l.map Prod.fst).Nodup) (hmem : (k, v) ∈ l) : dictGet k l = some v := by
  induction l with
  | nil => simp at hmem
  | cons hd t ih =>
    obtain ⟨k', v'⟩ := hd
    simp only [List.map_cons, List.nodup_cons] at hnd
    rcases List.mem_cons.mp hmem with h | h
    · injection h with h1 h2
      subst h1
      subst h2
      simp [dictGet]
    · have hk : k' ≠ k := by
        intro e
        exact hnd.1 (e ▸ List.mem_map_of_mem Prod.fst h)
      simp [dictGet, hk, ih hnd.2 h]

theorem pairwise_dictSet_of_rel {α : Type} {R : (Nat × α) → (Nat × α) → Prop}
    {k : Nat} {v : α} {l : List (Nat × α)}
    (hall : ∀ q, R (k, v) q ∧ R q (k, v)) (hp : l.Pairwise R) :
    (dictSet k v l).Pairwise R := by
  induction l with
  | nil => simp [dictSet, List.pairwise_cons, hp]
  | cons hd t ih =>
    obtain ⟨k', v'⟩ := hd
    rcases List.pairwise_cons.mp hp with ⟨hhd, ht⟩
    by_cases hk : k' = k
    · simp only [dictSet, if_pos hk]
      exact List.pairwise_cons.mpr ⟨fun q _ => (hall q).1, ht⟩
    · simp only [dictSet, if_neg hk]
      refine List.pairwise_cons.mpr ⟨fun q hq => ?_, ih ht⟩
      rcases mem_dictSet hq with h | h
      · exact h ▸ (hall (k', v')).2
      · exact hhd q h

theorem pairwise_dictSet_of_imp {α : Type} {R : (Nat × α) → (Nat × α) → Prop}
    {k : Nat} {r v : α} {l : List (Nat × α)}
    (hget : dictGet k l = some r)
    (h1 : ∀ q, R (k, r) q → R (k, v) q) (h2 : ∀ q, R q (k, r) → R q (k, v))
    (hp : l.Pairwise R) : (dictSet k v l).Pairwise R := by
  induction l with
  | nil => simp [dictGet] at hget
  | cons hd t ih =>
    obtain ⟨k', v'⟩ := hd
    rcases List.pairwise_cons.mp hp with ⟨hhd, ht⟩
    by_cases hk : k' = k
    · subst hk
      simp only [dictGet] at hget
      simp only [if_pos trivial, Option.some.injEq] at hget
      subst hget
      simp only [dictSet, if_pos rfl]
      exact List.pairwise_cons.mpr ⟨fun q hq => h1 q (hhd q hq), ht⟩
    · simp only [dictGet, if_neg hk] at hget
      simp only [dictSet, if_neg hk]
      refine List.pairwise_cons.mpr ⟨fun q hq => ?_, ih hget ht⟩
      rcases mem_dictSet hq with h | h
      · exact h ▸ h2 (k', v') (hhd (k, r) (dictGet_mem hget))
      · exact hhd q h

/-! ## The jackpot rounding: `int(S * 0.01) = S / 100` on the reachable range -/

theorem bitLenAux_zero (fuel : Nat) : bitLenAux fuel 0 = 0 := by
  cases fuel <;> simp [bitLenAux]

theorem bitLenAux_spec :
    ∀ fuel n, n ≠ 0 → n < 2 ^ fuel →
      2 ^ (bitLenAux fuel n - 1) ≤ n ∧ n < 2 ^ bitLenAux fuel n := by
  intro fuel
  induction fuel with
  | zero =>
    intro n h0 h1
    simp only [pow_zero] at h1
    omega
  | succ f ih =>
    intro n h0 h1
    simp only [bitLenAux, if_neg h0]
    by_cases h2 : n / 2 = 0
    · have hn1 : n = 1 := by omega
      subst hn1
      simp [bitLenAux_zero]
    · have hlt : n / 2 < 2 ^ f := by
        rw [pow_succ] at h1
        omega
      obtain ⟨hle, hlt2⟩ := ih (n / 2) h2 hlt
      rcases hb : bitLenAux f (n / 2) with _ | bb
      · rw [hb] at hlt2
        simp only [pow_zero] at hlt2
        omega
      · rw [hb] at hle hlt2
        have e1 : (2 : Nat) ^ (bb + 1) = 2 ^ bb * 2 := pow_succ 2 bb
        have e2 : (2 : Nat) ^ (bb + 2) = 2 ^ (bb + 1) * 2 := pow_succ 2 (bb + 1)
        simp only [Nat.add_sub_cancel] at hle ⊢
        constructor
        · omega
        · omega

theorem roundMulNat_eq (S : Nat) (h1 : 1 ≤ S) (h2 : S ≤ 10000) :
    roundMulNat S = S / 100 := by
  have hcM : centMantissa = 5764607523034235 := rfl
  have hP0 : S * centMantissa ≠ 0 := by
    rw [hcM]
    positivity
  have hPub : S * centMantissa < 2 ^ 66 := by
    have hb : S * centMantissa ≤ 10000 * centMantissa :=
      Nat.mul_le_mul_right centMantissa h2
    rw [hcM] at hb ⊢
    norm_num at hb ⊢
    omega
  have hP128 : S * centMantissa < 2 ^ 128 := lt_trans hPub (by norm_num)
  obtain ⟨hB1, hB2⟩ := bitLenAux_spec 128 (S * centMantissa) hP0 hP128
  have hBb : bitLen (S * centMantissa) = bitLenAux 128 (S * centMantissa) := rfl
  rw [← hBb] at hB1 hB2
  have hBlo : 53 ≤ bitLen (S * centMantissa) := by
    by_contra hc
    push_neg at hc
    have hub : S * centMantissa < 2 ^ 52 := by
      calc S * centMantissa < 2 ^ bitLen (S * centMantissa) := hB2
        _ ≤ 2 ^ 52 := Nat.pow_le_pow_right (by norm_num) (by omega)
    have hge : 1 * centMantissa ≤ S * centMantissa :=
      Nat.mul_le_mul_right centMantissa h1
    rw [hcM] at hge hub
    norm_num at hge hub
    omega
  have hBhi : bitLen (S * centMantissa) ≤ 66 := by
    by_contra hc
    push_neg at hc
    have : 2 ^ 66 ≤ 2 ^ (bitLen (S * centMantissa) - 1) :=
      Nat.pow_le_pow_right (by norm_num) (by omega)
    omega
  simp only [roundMulNat, if_neg hP0]
  set B := bitLen (S * centMantissa) with hBdef
  clear_value B
  rw [hcM] at hB1 hB2 hP0 hPub ⊢
  interval_cases B
  all_goals (
    simp only [Nat.shiftRight_eq_div_pow]
    try norm_num at hB1 hB2 ⊢
    first
    | omega
    | (split_ifs <;> omega))

theorem jackpotCut_eq (x : Int) (h0 : 0 ≤ x) (h1 : x ≤ 10000) :
    jackpotCut x = x / 100 := by
  unfold jackpotCut
  rw [if_neg (not_lt.mpr h0)]
  obtain ⟨n, rfl⟩ := Int.eq_ofNat_of_zero_le h0
  have hn : n ≤ 10000 := by exact_mod_cast h1
  by_cases h : n = 0
  · subst h
    simp [roundMulNat]
  · have h1n : 1 ≤ n := Nat.one_le_iff_ne_zero.mpr h
    rw [Int.natAbs_ofNat, roundMulNat_eq n h1n hn]
    norm_cast

/-! ## Simple facts about the engine operations -/

theorem create_game_round_users (s : GameState) (uid fresh : Nat) :
    (s.create_game_round uid fresh).2.users = s.users := by
  unfold GameState.create_game_round
  repeat' split
  all_goals rfl

theorem get_or_create_users (s : GameState) (uid fresh : Nat) :
    (get_or_create_active_round s uid fresh).2.users = s.users := by
  unfold get_or_create_active_round
  split
  · rfl
  · exact create_game_round_users _ _ _
  · exact create_game_round_users _ _ _

/-- Success case of the tail of `place_bet`: the exact result and state. -/
theorem placeBetFinish_success (s : GameState) (user : User) (uid : Nat)
    (face amount : Int) (k : Nat) (r : GameRound) (frB : Nat)
    (h : (placeBetFinish s user uid face amount k r frB).1.1 = true) :
    placeBetFinish s user uid face amount k r frB =
      ((true, "Bet placed successfully", some frB),
       { s with users := dictSet uid { user with balance := user.balance - amount } s.users,
                active_rounds := dictSet k
                  (r.add_bet { bet_id := frB, user_id := uid, round_id := r.round_id,
                               dice_face := face, amount := amount }) s.active_rounds }) := by
  unfold placeBetFinish at h ⊢
  split_ifs at h ⊢
  rfl

/-- C5: against a round id absent from the active index, `finish_betting`
replies ok with "Round already processed" and `settle` replies ok with the
zero-valued default result (dice 3, no bet results, zero winnings); against an
owned AWAITING_RESULTS round, `finish_betting` replies ok with
"Round already finished". -/
theorem idempotent_finish_and_settle (s : GameState) (uid rid : Nat) (d : Int) :
    (dictGet rid s.active_rounds = none →
      finish_betting s uid rid = ((true, "Round already processed"), s) ∧
      calculate_results s uid rid d =
        ((true, "Results already calculated",
          some { dice_result := 3, bet_results := [], total_winnings := 0,
                 new_balance := 0, jackpot_pool := 0 }), s)) ∧
    (∀ r, dictGet rid s.active_rounds = some r → r.user_id = uid →
      r.status = GameRoundStatus.WAITING_RESULTS →
      finish_betting s uid rid = ((true, "Round already finished"), s)) := by
  constructor
  · intro h
    constructor
    · simp [finish_betting, h]
    · simp [calculate_results, h]
  · intro r h hu hs
    simp [finish_betting, h, hu, hs]

/-- Witness for C5 at concrete states: `sWait` has round 9 in AWAITING_RESULTS
and no round 99. -/
theorem idempotent_finish_and_settle_witness :
    finish_betting sWait 1 99 = ((true, "Round already processed"), sWait) ∧
    calculate_results sWait 1 99 5 =
      ((true, "Results already calculated",
        some { dice_result := 3, bet_results := [], total_winnings := 0,
               new_balance := 0, jackpot_pool := 0 }), sWait) ∧
    finish_betting sWait 1 9 = ((true, "Round already finished"), sWait) := by
  have h1 := (idempotent_finish_and_settle sWait 1 99 5).1 (by decide)
  have h2 := (idempotent_finish_and_settle sWait 1 9 5).2
    { round_id := 9, user_id := 1, room_id := 1, bets := [mkBet 70 3 100],
      status := GameRoundStatus.WAITING_RESULTS }
    (by decide) (by decide) (by decide)
  exact ⟨h1.1, h1.2, h2⟩

/-- Once all four validation checks pass, `place_bet` either fails (round
resolution) or hands over to `placeBetFinish` on some key, round and
intermediate state whose user table is untouched. -/
theorem place_bet_resolution (s : GameState) (uid : Nat) (face amount : Int)
    (orid : Option Nat) (frR frB : Nat) (u : User)
    (hu : dictGet uid s.users = some u)
    (h1 : ¬ (face < 1 ∨ 6 < face)) (h2 : ¬ (amount < 1 ∨ 1000 < amount))
    (h3 : ¬ u.balance < amount) :
    (place_bet s uid face amount orid frR frB).1.1 = false ∨
    ∃ (k : Nat) (r : GameRound) (s1 : GameState), s1.users = s.users ∧
      place_bet s uid face amount orid frR frB =
        placeBetFinish s1 u uid face amount k r frB := by
  simp only [place_bet, hu, if_neg h1, if_neg h2, if_neg h3]
  cases orid with
  | some rid =>
    cases hr : dictGet rid s.active_rounds with
    | none => exact Or.inl (by simp [hr])
    | some r =>
      by_cases hown : r.user_id = uid
      · exact Or.inr ⟨rid, r, s, rfl, by simp [hr, hown]⟩
      · exact Or.inl (by simp [hr, hown])
  | none =>
    cases hg : get_or_create_active_round s uid frR with
    | mk og s1 =>
      cases og with
      | none => exact Or.inl (by simp [hg])
      | some kr =>
        obtain ⟨k, r⟩ := kr
        refine Or.inr ⟨k, r, s1, ?_, by simp [hg]⟩
        have hus := get_or_create_users s uid frR
        rw [hg] at hus
        exact hus

/-- C2: the `place_bet` validation checks run in order, the first failure
short-circuits with its named message and leaves the state unchanged, and on
success the balance is debited by `amount` and the new bet is appended to the
resolved round's bet list. -/
theorem place_bet_validation (s : GameState) (uid : Nat) (face amount : Int)
    (orid : Option Nat) (frR frB : Nat) :
    (dictGet uid s.users = none →
      place_bet s uid face amount orid frR frB = ((false, "User not found", none), s)) ∧
    (∀ u, dictGet uid s.users = some u →
      ((face < 1 ∨ 6 < face) →
        place_bet s uid face amount orid frR frB =
          ((false, "Invalid dice face (must be 1-6)", none), s)) ∧
      (¬ (face < 1 ∨ 6 < face) → (amount < 1 ∨ 1000 < amount) →
        place_bet s uid face amount orid frR frB =
          ((false, "Invalid bet amount (1-1000)", none), s)) ∧
      (¬ (face < 1 ∨ 6 < face) → ¬ (amount < 1 ∨ 1000 < amount) →
        u.balance < amount →
        place_bet s uid face amount orid frR frB =
          ((false, "Insufficient balance", none), s)) ∧
      ((place_bet s uid face amount orid frR frB).1.1 = true →
        (place_bet s uid face amount orid frR frB).1 =
          (true, "Bet placed successfully", some frB) ∧
        dictGet uid (place_bet s uid face amount orid frR frB).2.users =
          some { u with balance := u.balance - amount } ∧
        ∃ (k : Nat) (r₀ : GameRound),
          dictGet k (place_bet s uid face amount orid frR frB).2.active_rounds =
          some (r₀.add_bet { bet_id := frB, user_id := uid, round_id := r₀.round_id,
                             dice_face := face, amount := amount }))) := by
  constructor
  · intro h
    simp [place_bet, h]
  · intro u hu
    refine ⟨?_, ?_, ?_, ?_⟩
    · intro hface
      simp [place_bet, hu, hface]
    · intro hface hamt
      simp [place_bet, hu, hface, hamt]
    · intro hface hamt hbal
      simp [place_bet, hu, hface, hamt, hbal]
    · intro hsucc
      by_cases h1 : face < 1 ∨ 6 < face
      · simp [place_bet, hu, h1] at hsucc
      by_cases h2 : amount < 1 ∨ 1000 < amount
      · simp [place_bet, hu, h1, h2] at hsucc
      by_cases h3 : u.balance < amount
      · simp [place_bet, hu, h1, h2, h3] at hsucc
      rcases place_bet_resolution s uid face amount orid frR frB u hu h1 h2 h3 with
        hfail | ⟨k, r, s1, husers, heq⟩
      · rw [hfail] at hsucc
        exact absurd hsucc (by simp)
      · rw [heq] at hsucc ⊢
        have hfin := placeBetFinish_success s1 u uid face amount k r frB hsucc
        rw [hfin]
        refine ⟨rfl, ?_, k, r, ?_⟩
        · show dictGet uid (dictSet uid _ s1.users) = _
          rw [husers]
          exact dictGet_dictSet_self _ _ _
        · exact dictGet_dictSet_self _ _ _

/-- Witness for C2 at concrete inputs: an invalid dice face at the seeded state
fails with the named message, and a valid bet in `sNine` succeeds. -/
theorem place_bet_validation_witness :
    place_bet initState 1 7 100 none 5 6 =
      ((false, "Invalid dice face (must be 1-6)", none), initState) ∧
    (place_bet sNine 1 3 50 (some 9) 200 201).1 =
      (true, "Bet placed successfully", some 201) := by
  constructor
  · exact (((place_bet_validation initState 1 7 100 none 5 6).2
      { user_id := 1, username := "testuser1", password_hash := "password123",
        balance := 1000 } (by decide)).1 (by decide))
  · exact (((place_bet_validation sNine 1 3 50 (some 9) 200 201).2
      { user_id := 1, username := "testuser1", password_hash := "password123",
        balance := 1000, current_room := some 1 } (by decide)).2.2.2 (by decide)).1

/-! ## Characterizing the `get_or_create_active_round` scan -/

theorem scanBetting_ret (uid : Nat) :
    ∀ l (k : Nat) (r : GameRound), scanBetting uid l = ScanOut.ret k r →
      (k, r) ∈ l ∧ isBettingOf uid (k, r) = true ∧ r.bets.length < 9 := by
  intro l
  induction l with
  | nil =>
    intro k r h
    simp [scanBetting] at h
  | cons hd t ih =>
    intro k r h
    obtain ⟨k0, r0⟩ := hd
    by_cases hb : isBettingOf uid (k0, r0) = true
    · by_cases h9 : 9 ≤ r0.bets.length
      · simp [scanBetting, hb, h9] at h
      · simp only [scanBetting, hb, if_true, if_neg h9] at h
        injection h with e1 e2
        subst e1
        subst e2
        exact ⟨List.mem_cons_self _ _, hb, by omega⟩
    · simp only [scanBetting, hb, if_false] at h
      cases hs : scanBetting uid t with
      | ret k' r' =>
        rw [hs] at h
        injection h with e1 e2
        subst e1
        subst e2
        obtain ⟨hm, hbet, hlen⟩ := ih _ _ hs
        exact ⟨List.mem_cons_of_mem _ hm, hbet, hlen⟩
      | rolled t' => rw [hs] at h; simp at h
      | missing => rw [hs] at h; simp at h

theorem scanBetting_missing (uid : Nat) :
    ∀ l, scanBetting uid l = ScanOut.missing →
      ∀ p ∈ l, ¬ (isBettingOf uid p = true) := by
  intro l
  induction l with
  | nil => intro _ p hp; simp at hp
  | cons hd t ih =>
    intro h p hp
    obtain ⟨k0, r0⟩ := hd
    by_cases hb : isBettingOf uid (k0, r0) = true
    · by_cases h9 : 9 ≤ r0.bets.length
      · simp [scanBetting, hb, h9] at h
      · simp [scanBetting, hb, h9] at h
    · simp only [scanBetting, hb, if_false] at h
      rcases List.mem_cons.mp hp with rfl | hp'
      · exact hb
      · cases hs : scanBetting uid t with
        | ret k' r' => rw [hs] at h; simp at h
        | rolled t' => rw [hs] at h; simp at h
        | missing => exact ih hs p hp'

theorem scanBetting_rolled (uid : Nat) :
    ∀ l l', scanBetting uid l = ScanOut.rolled l' →
      ∃ l1 k r l2, l = l1 ++ (k, r) :: l2 ∧
        l' = l1 ++ (k, r.finish_betting) :: l2 ∧
        (∀ p ∈ l1, ¬ (isBettingOf uid p = true)) ∧
        isBettingOf uid (k, r) = true ∧ 9 ≤ r.bets.length := by
  intro l
  induction l with
  | nil =>
    intro l' h
    simp [scanBetting] at h
  | cons hd t ih =>
    intro l' h
    obtain ⟨k0, r0⟩ := hd
    by_cases hb : isBettingOf uid (k0, r0) = true
    · by_cases h9 : 9 ≤ r0.bets.length
      · simp only [scanBetting, hb, if_true, if_pos h9] at h
        injection h with e1
        exact ⟨[], k0, r0, t, by simp, by simp [e1.symm], by simp, hb, h9⟩
      · simp [scanBetting, hb, h9] at h
    · simp only [scanBetting, hb, if_false] at h
      cases hs : scanBetting uid t with
      | ret k' r' => rw [hs] at h; simp at h
      | missing => rw [hs] at h; simp at h
      | rolled t' =>
        rw [hs] at h
        injection h with e1
        obtain ⟨l1, k, r, l2, he1, he2, hl1, hbet, hlen⟩ := ih t' hs
        refine ⟨(k0, r0) :: l1, k, r, l2, by rw [he1]; rfl, ?_, ?_, hbet, hlen⟩
        · rw [← e1, he2]
          rfl
        · intro p hp
          rcases List.mem_cons.mp hp with rfl | hp'
          · exact hb
          · exact hl1 p hp'

/-- The bets (with their keys) stored in the index are untouched by a rolled scan. -/
theorem scanBetting_rolled_betsmap {uid : Nat} {l l' : List (Nat × GameRound)}
    (h : scanBetting uid l = ScanOut.rolled l') :
    l'.map (fun p => (p.1, p.2.bets)) = l.map (fun p => (p.1, p.2.bets)) := by
  obtain ⟨l1, k, r, l2, he1, he2, -, -, -⟩ := scanBetting_rolled uid l l' h
  subst he1
  subst he2
  simp [GameRound.finish_betting]

/-- A `placeBetFinish` on a BETTING round below the bet cap succeeds. -/
theorem placeBetFinish_true (s : GameState) (user : User) (uid : Nat)
    (face amount : Int) (k : Nat) (r : GameRound) (frB : Nat)
    (hst : r.status = GameRoundStatus.BETTING_PHASE) (hlen : r.bets.length < 10) :
    (placeBetFinish s user uid face amount k r frB).1.1 = true := by
  unfold placeBetFinish
  rw [if_neg (by simp [hst]), if_neg (by omega)]

/-- A failing `placeBetFinish` returns the state it was given. -/
theorem placeBetFinish_false (s : GameState) (user : User) (uid : Nat)
    (face amount : Int) (k : Nat) (r : GameRound) (frB : Nat)
    (h : (placeBetFinish s user uid face amount k r frB).1.1 = false) :
    (placeBetFinish s user uid face amount k r frB).2 = s := by
  unfold placeBetFinish at h ⊢
  split_ifs at h ⊢ <;> rfl

/-- Case analysis of `GameState.create_game_round`: it fails leaving the state
alone, returns an indexed BETTING round of the user leaving the state alone, or
inserts a fresh BETTING round when none is indexed. -/
theorem create_game_round_spec (s : GameState) (uid fresh : Nat) :
    (s.create_game_round uid fresh = (none, s)) ∨
    (∃ k r, s.create_game_round uid fresh = (some (k, r), s) ∧
      isBettingOf uid (k, r) = true ∧ (k, r) ∈ s.active_rounds) ∨
    (∃ cr, s.create_game_round uid fresh =
        (some (fresh, { round_id := fresh, user_id := uid, room_id := cr }),
         { s with active_rounds :=
             (dictSet fresh ({ round_id := fresh, user_id := uid, room_id := cr } : GameRound)
               s.active_rounds) }) ∧
      s.active_rounds.find? (isBettingOf uid) = none) := by
  rcases hu : dictGet uid s.users with _ | user
  · exact Or.inl (by simp [GameState.create_game_round, hu])
  rcases hcr : user.current_room with _ | cr
  · exact Or.inl (by simp [GameState.create_game_round, hu, hcr])
  by_cases h0 : cr = 0
  · exact Or.inl (by simp [GameState.create_game_round, hu, hcr, h0])
  rcases hf : s.active_rounds.find? (isBettingOf uid) with _ | p
  · refine Or.inr (Or.inr ⟨cr, ?_, rfl⟩)
    simp only [GameState.create_game_round, hu, hcr, if_neg h0, hf]
  · refine Or.inr (Or.inl ⟨p.1, p.2, ?_, ?_, ?_⟩)
    · simp [GameState.create_game_round, hu, hcr, h0, hf]
    · simpa using List.find?_some hf
    · simpa using List.mem_of_find?_eq_some hf

/-- C10: every failing `place_bet` call leaves the user table unchanged and
appends no bet to any round (the keyed bet lists of the index are preserved). -/
theorem place_bet_failure_preserves (s : GameState) (uid : Nat) (face amount : Int)
    (orid : Option Nat) (frR frB : Nat)
    (h : (place_bet s uid face amount orid frR frB).1.1 = false) :
    (place_bet s uid face amount orid frR frB).2.users = s.users ∧
    (place_bet s uid face amount orid frR frB).2.active_rounds.map
        (fun p => (p.1, p.2.bets)) =
      s.active_rounds.map (fun p => (p.1, p.2.bets)) := by
  rcases hu : dictGet uid s.users with _ | u
  · simp [place_bet, hu]
  by_cases h1 : face < 1 ∨ 6 < face
  · simp [place_bet, hu, h1]
  by_cases h2 : amount < 1 ∨ 1000 < amount
  · simp [place_bet, hu, h1, h2]
  by_cases h3 : u.balance < amount
  · simp [place_bet, hu, h1, h2, h3]
  cases orid with
  | some rid =>
    rcases hr : dictGet rid s.active_rounds with _ | r
    · simp [place_bet, hu, h1, h2, h3, hr]
    by_cases hown : r.user_id = uid
    · have heq : place_bet s uid face amount (some rid) frR frB =
          placeBetFinish s u uid face amount rid r frB := by
        simp [place_bet, hu, h1, h2, h3, hr, hown]
      rw [heq] at h ⊢
      rw [placeBetFinish_false _ _ _ _ _ _ _ _ h]
      exact ⟨rfl, rfl⟩
    · simp [place_bet, hu, h1, h2, h3, hr, hown]
  | none =>
    cases hsc : scanBetting uid s.active_rounds with
    | ret k r =>
      have hg : get_or_create_active_round s uid frR = (some (k, r), s) := by
        unfold get_or_create_active_round
        rw [hsc]
      have heq : place_bet s uid face amount none frR frB =
          placeBetFinish s u uid face amount k r frB := by
        simp [place_bet, hu, h1, h2, h3, hg]
      obtain ⟨hm, hbet, hlen⟩ := scanBetting_ret uid s.active_rounds k r hsc
      have hst : r.status = GameRoundStatus.BETTING_PHASE := by
        simp only [isBettingOf, decide_eq_true_eq] at hbet
        exact hbet.2
      have htrue := placeBetFinish_true s u uid face amount k r frB hst (by omega)
      rw [heq] at h
      rw [htrue] at h
      exact absurd h (by simp)
    | rolled l' =>
      have hbm := scanBetting_rolled_betsmap hsc
      have hg : get_or_create_active_round s uid frR =
          GameState.create_game_round { s with active_rounds := l' } uid frR := by
        unfold get_or_create_active_round
        rw [hsc]
      rcases create_game_round_spec { s with active_rounds := l' } uid frR with
        hc | ⟨k, r, hc, hbet, hmem⟩ | ⟨cr, hc, hfind⟩
      · have heq : place_bet s uid face amount none frR frB =
            ((false, "Failed to create game round", none),
             ({ s with active_rounds := l' } : GameState)) := by
          simp [place_bet, hu, h1, h2, h3, hg, hc]
        rw [heq]
        exact ⟨rfl, hbm⟩
      · have heq : place_bet s uid face amount none frR frB =
            placeBetFinish { s with active_rounds := l' } u uid face amount k r frB := by
          simp [place_bet, hu, h1, h2, h3, hg, hc]
        rw [heq] at h ⊢
        rw [placeBetFinish_false _ _ _ _ _ _ _ _ h]
        exact ⟨rfl, hbm⟩
      · have heq : place_bet s uid face amount none frR frB =
            placeBetFinish
              { s with active_rounds :=
                  (dictSet frR ({ round_id := frR, user_id := uid, room_id := cr } : GameRound) l') }
              u uid face amount frR
              { round_id := frR, user_id := uid, room_id := cr } frB := by
          simp [place_bet, hu, h1, h2, h3, hg, hc]
        have htrue := placeBetFinish_true
          { s with active_rounds :=
              (dictSet frR ({ round_id := frR, user_id := uid, room_id := cr } : GameRound) l') }
          u uid face amount frR
          { round_id := frR, user_id := uid, room_id := cr } frB rfl (by simp)
        rw [heq] at h
        rw [htrue] at h
        exact absurd h (by simp)
    | missing =>
      have hg : get_or_create_active_round s uid frR =
          GameState.create_game_round s uid frR := by
        unfold get_or_create_active_round
        rw [hsc]
      rcases create_game_round_spec s uid frR with
        hc | ⟨k, r, hc, hbet, hmem⟩ | ⟨cr, hc, hfind⟩
      · have heq : place_bet s uid face amount none frR frB =
            ((false, "Failed to create game round", none), s) := by
          simp [place_bet, hu, h1, h2, h3, hg, hc]
        rw [heq]
        exact ⟨rfl, rfl⟩
      · have heq : place_bet s uid face amount none frR frB =
            placeBetFinish s u uid face amount k r frB := by
          simp [place_bet, hu, h1, h2, h3, hg, hc]
        rw [heq] at h ⊢
        rw [placeBetFinish_false _ _ _ _ _ _ _ _ h]
        exact ⟨rfl, rfl⟩
      · have heq : place_bet s uid face amount none frR frB =
            placeBetFinish
              { s with active_rounds :=
                  (dictSet frR ({ round_id := frR, user_id := uid, room_id := cr } : GameRound)
                    s.active_rounds) }
              u uid face amount frR
              { round_id := frR, user_id := uid, room_id := cr } frB := by
          simp [place_bet, hu, h1, h2, h3, hg, hc]
        have htrue := placeBetFinish_true
          { s with active_rounds :=
              (dictSet frR ({ round_id := frR, user_id := uid, room_id := cr } : GameRound)
                s.active_rounds) }
          u uid face amount frR
          { round_id := frR, user_id := uid, room_id := cr } frB rfl (by simp)
        rw [heq] at h
        rw [htrue] at h
        exact absurd h (by simp)

/-- Witness for C10: an insufficient-balance failure at the seeded state leaves
users and round bet lists unchanged. -/
theorem place_bet_failure_preserves_witness :
    (place_bet initState 1 3 2000 none 5 6).2.users = initState.users ∧
    (place_bet initState 1 3 2000 none 5 6).2.active_rounds.map
        (fun p => (p.1, p.2.bets)) =
      initState.active_rounds.map (fun p => (p.1, p.2.bets)) :=
  place_bet_failure_preserves initState 1 3 2000 none 5 6 (by decide)

/-! ## C6: failed `join_room` and what it leaves behind -/

/-- Counterexample to C6: in `cexJoin`, user 7 sits in room 1 and room 2 is at
capacity; `join_room 7 2` returns false yet the state has changed (user 7 was
already removed from room 1's player set). -/
theorem join_room_full_mutates :
    (cexJoin.join_room 7 2).1 = false ∧ (cexJoin.join_room 7 2).2 ≠ cexJoin := by
  decide

/-- C6 (amended): when `join_room` returns false because the user or the target
room is missing, the state is unchanged; when it returns false because the
target room is full, the user has nevertheless been removed from their previous
room's player set (the leave-first step is not rolled back), and nothing else
changed — in particular `current_room` still points at the previous room. -/
theorem join_room_false_cases (s : GameState) (uid rid : Nat)
    (h : (s.join_room uid rid).1 = false) :
    ((dictGet uid s.users = none ∨ dictGet rid s.rooms = none) →
      (s.join_room uid rid).2 = s) ∧
    (∀ u room, dictGet uid s.users = some u → dictGet rid s.rooms = some room →
      (s.join_room uid rid).2 = { s with rooms := leaveCurrentRooms s u uid }) := by
  constructor
  · intro hmiss
    rcases hu : dictGet uid s.users with _ | u
    · simp [GameState.join_room, hu]
    rcases hr : dictGet rid s.rooms with _ | room
    · simp [GameState.join_room, hu, hr]
    · rcases hmiss with hm | hm
      · rw [hu] at hm
        cases hm
      · rw [hr] at hm
        cases hm
  · intro u room hu hroom
    have hstep : s.join_room uid rid =
        (match ((dictGet rid (leaveCurrentRooms s u uid)).getD room).add_player uid with
         | (true, room2) =>
           (true, { s with rooms := dictSet rid room2 (leaveCurrentRooms s u uid),
                           users := dictSet uid { u with current_room := some rid } s.users })
         | (false, _) => (false, { s with rooms := leaveCurrentRooms s u uid })) := by
      simp [GameState.join_room, hu, hroom]
    rcases hap : ((dictGet rid (leaveCurrentRooms s u uid)).getD room).add_player uid with
      ⟨b, room2⟩
    rw [hap] at hstep
    cases b with
    | true =>
      rw [hstep] at h
      exact absurd h (by simp)
    | false =>
      rw [hstep]

/-- Witness for the amended C6 at the concrete counterexample state. -/
theorem join_room_false_cases_witness :
    (cexJoin.join_room 7 2).2 =
      { cexJoin with rooms :=
          (leaveCurrentRooms cexJoin
            ({ user_id := 7, username := "u7", password_hash := "p", balance := 0,
               current_room := some 1 } : User) 7) } :=
  (join_room_false_cases cexJoin 7 2 (by decide)).2
    { user_id := 7, username := "u7", password_hash := "p", balance := 0,
      current_room := some 1 }
    { room_id := 2, name := "Room 2", max_capacity := 50,
      current_players := (List.range 50).map (fun i => i + 100) }
    (by decide) (by decide)

/-! ## C9: duplicate login -/

/-- A user whose session is not expired holds a token. -/
theorem token_of_not_expired {u : User} {now : Nat}
    (h : u.is_session_expired now = false) : u.session_token.isSome = true := by
  unfold User.is_session_expired at h
  cases ht : u.session_token with
  | none => rw [ht] at h; simp at h
  | some tok => simp

/-- The authentication loop, characterized through the first username/password
match of the user list. -/
theorem authScan_of_find (username password : String) (now fresh : Nat) :
    ∀ (l : List (Nat × User)) (k : Nat) (u : User),
      l.find? (authMatch username password) = some (k, u) →
      (u.is_session_expired now = false →
        authScan username password now fresh l = some (none, l)) ∧
      (u.is_session_expired now = true →
        ∃ l', authScan username password now fresh l =
          some (some (u.generate_session_token fresh now), l')) := by
  intro l
  induction l with
  | nil =>
    intro k u h
    simp at h
  | cons hd t ih =>
    intro k u h
    obtain ⟨k0, u0⟩ := hd
    by_cases hm : authMatch username password (k0, u0) = true
    · rw [List.find?_cons_of_pos _ hm] at h
      injection h with e
      injection e with e1 e2
      have e1' := e1.symm
      have e2' := e2.symm
      subst e1'
      subst e2'
      have hcond : u.username = username ∧ u.verify_password password := by
        have := of_decide_eq_true hm
        exact ⟨this.1, this.2⟩
      constructor
      · intro hexp
        have hsome := token_of_not_expired hexp
        simp only [authScan, if_pos hcond, hsome, hexp]
        simp
      · intro hexp
        refine ⟨(k, u.generate_session_token fresh now) :: t, ?_⟩
        simp only [authScan, if_pos hcond, hexp]
        simp
    · rw [List.find?_cons_of_neg _ hm] at h
      obtain ⟨ih1, ih2⟩ := ih k u h
      have hcond : ¬ (u0.username = username ∧ u0.verify_password password = true) := by
        intro hc
        exact hm (decide_eq_true hc)
      constructor
      · intro hexp
        simp only [authScan, if_neg hcond, ih1 hexp]
      · intro hexp
        obtain ⟨t', ht'⟩ := ih2 hexp
        exact ⟨(k0, u0) :: t', by simp only [authScan, if_neg hcond, ht']⟩

/-- C9: while the first username/password match holds a live unexpired token, a
second authenticate call returns none and changes nothing; once the token is
cleared or expired, the same call succeeds and installs the fresh token with a
fresh activity stamp. -/
theorem duplicate_login_rejected (s : GameState) (username password : String)
    (now fresh : Nat) (k : Nat) (u : User)
    (hfind : s.users.find? (authMatch username password) = some (k, u)) :
    (∀ tok, u.session_token = some tok → u.is_session_expired now = false →
      s.authenticate_user username password now fresh = (none, s)) ∧
    (u.is_session_expired now = true →
      ∃ u', (s.authenticate_user username password now fresh).1 = some u' ∧
        u'.session_token = some fresh ∧ u'.last_activity = now) := by
  obtain ⟨ha1, ha2⟩ := authScan_of_find username password now fresh s.users k u hfind
  constructor
  · intro tok htok hexp
    unfold GameState.authenticate_user
    rw [ha1 hexp]
  · intro hexp
    obtain ⟨l', hl'⟩ := ha2 hexp
    unfold GameState.authenticate_user
    rw [hl']
    exact ⟨u.generate_session_token fresh now, rfl, rfl, rfl⟩

/-- Witness for C9: the concrete state `sLive` rejects a duplicate login at
time 10; `sFree` (token cleared) accepts it and stores the fresh token. -/
theorem duplicate_login_rejected_witness :
    sLive.authenticate_user "testuser1" "password123" 10 77 = (none, sLive) ∧
    ∃ u', (sFree.authenticate_user "testuser1" "password123" 10 77).1 = some u' ∧
      u'.session_token = some 77 ∧ u'.last_activity = 10 := by
  constructor
  · exact (duplicate_login_rejected sLive "testuser1" "password123" 10 77 1
      { user_id := 1, username := "testuser1", password_hash := "password123",
        balance := 1000, session_token := some 55, last_activity := 0 }
      (by decide)).1 55 (by decide) (by decide)
  · exact (duplicate_login_rejected sFree "testuser1" "password123" 10 77 1
      { user_id := 1, username := "testuser1", password_hash := "password123",
        balance := 1000, session_token := none, last_activity := 0 }
      (by decide)).2 (by decide)

/-! ## Settlement: C1 and C7 -/

theorem betSum_foldl (l : List BetData) :
    ∀ a : Int, l.foldl (fun acc b => acc + b.amount) a = a + betSum l := by
  induction l with
  | nil => intro a; simp [betSum]
  | cons b t ih =>
    intro a
    have h1 : (b :: t).foldl (fun acc b => acc + b.amount) a =
        t.foldl (fun acc b => acc + b.amount) (a + b.amount) := rfl
    have h2 : betSum (b :: t) = t.foldl (fun acc b => acc + b.amount) (0 + b.amount) := rfl
    rw [h1, h2, ih, ih]
    ring

theorem betSum_settle (d : Int) (l : List BetData) :
    betSum (l.map (settleBet d)) = betSum l := by
  induction l with
  | nil => rfl
  | cons b t ih =>
    have h1 : betSum ((b :: t).map (settleBet d)) =
        (t.map (settleBet d)).foldl (fun acc b => acc + b.amount)
          (0 + (settleBet d b).amount) := rfl
    have h2 : betSum (b :: t) = t.foldl (fun acc b => acc + b.amount) (0 + b.amount) := rfl
    rw [h1, h2, betSum_foldl, betSum_foldl, ih]
    rfl

/-- The full reduction of a successful `GameEngine.calculate_results` call:
round present and owned, settleable status, user present. -/
theorem calculate_results_success (s : GameState) (uid rid : Nat) (d : Int)
    (r : GameRound) (u : User)
    (hr : dictGet rid s.active_rounds = some r) (hown : r.user_id = uid)
    (hst : r.status = GameRoundStatus.BETTING_PHASE ∨
           r.status = GameRoundStatus.WAITING_RESULTS)
    (hu : dictGet uid s.users = some u) :
    calculate_results s uid rid d =
      ((true, "Results calculated successfully",
        some { dice_result := d,
               bet_results := r.bets.map (fun b =>
                 { bet_id := b.bet_id, dice_face := b.dice_face, bet_amount := b.amount,
                   won := some (b.dice_face == d),
                   payout := some (if b.dice_face == d then b.amount * 6 else 0) }),
               total_winnings := (r.bets.map (betPayout d)).foldl (· + ·) 0,
               new_balance := u.balance + (r.bets.map (betPayout d)).foldl (· + ·) 0,
               jackpot_pool :=
                 match (match u.current_room with
                        | some cr => if cr = 0 then none else some cr
                        | none => none : Option Nat) with
                 | some cr =>
                   match dictGet cr s.rooms with
                   | some room => room.jackpot_pool + jackpotCut (betSum r.bets)
                   | none => 0
                 | none => 0 }),
       { s with
           users := dictSet uid
             { u with balance := u.balance + (r.bets.map (betPayout d)).foldl (· + ·) 0 }
             s.users,
           rooms :=
             match (match u.current_room with
                    | some cr => if cr = 0 then none else some cr
                    | none => none : Option Nat) with
             | some cr =>
               match dictGet cr s.rooms with
               | some room =>
                 dictSet cr
                   { room with jackpot_pool := room.jackpot_pool + jackpotCut (betSum r.bets) }
                   s.rooms
               | none => s.rooms
             | none => s.rooms,
           active_rounds := dictPop rid s.active_rounds }) := by
  have hg1 : ¬ (r.user_id ≠ uid) := by simp [hown]
  have hg2 : ¬ (r.status ≠ GameRoundStatus.WAITING_RESULTS ∧
                r.status ≠ GameRoundStatus.BETTING_PHASE) := by
    rcases hst with h | h <;> simp [h]
  have hb : (if r.status = GameRoundStatus.BETTING_PHASE then r.finish_betting else r).bets
      = r.bets := by
    split <;> rfl
  simp only [calculate_results, hr, if_neg hg1, if_neg hg2, hu,
    GameRound.calculate_results, hb, betSum_settle, List.map_map]
  simp only [Prod.mk.injEq, GameState.mk.injEq, RoundResults.mk.injEq, Option.some.injEq,
    true_and]
  refine ⟨⟨?_, ?_⟩, ?_, ?_⟩
  · simp [Function.comp, settleBet]
  all_goals (
    rcases hc : u.current_room with _ | cr
    · simp [hc]
    · by_cases h0 : cr = 0
      · simp [hc, h0]
      · rcases hg : dictGet cr s.rooms with _ | room
        · simp [hc, h0, hg]
        · simp [hc, h0, hg])

/-- C1: settlement at dice value `d` marks every bet of the round won exactly
when its face equals `d`, pays `6 ×` the amount on a win and `0` otherwise,
reports the sum of these payouts as the total winnings, and credits the owning
user's balance by exactly that total. -/
theorem settle_pays_and_credits (s : GameState) (uid rid : Nat) (d : Int)
    (r : GameRound) (u : User)
    (hr : dictGet rid s.active_rounds = some r) (hown : r.user_id = uid)
    (hst : r.status = GameRoundStatus.BETTING_PHASE ∨
           r.status = GameRoundStatus.WAITING_RESULTS)
    (hu : dictGet uid s.users = some u) :
    (calculate_results s uid rid d).1.1 = true ∧
    ∃ out, (calculate_results s uid rid d).1.2.2 = some out ∧
      out.bet_results = r.bets.map (fun b =>
        { bet_id := b.bet_id, dice_face := b.dice_face, bet_amount := b.amount,
          won := some (b.dice_face == d),
          payout := some (if b.dice_face == d then b.amount * 6 else 0) }) ∧
      out.total_winnings =
        (r.bets.map (fun b => if b.dice_face == d then 6 * b.amount else 0)).sum ∧
      dictGet uid (calculate_results s uid rid d).2.users =
        some { u with balance := u.balance + out.total_winnings } := by
  rw [calculate_results_success s uid rid d r u hr hown hst hu]
  have hsum : (r.bets.map (betPayout d)).foldl (· + ·) 0 =
      (r.bets.map (fun b => if b.dice_face == d then 6 * b.amount else 0)).sum := by
    have hf : betPayout d = (fun b => if b.dice_face == d then 6 * b.amount else 0) := by
      funext b
      unfold betPayout
      rcases Bool.eq_false_or_eq_true (b.dice_face == d) with h | h <;>
        simp [h, Int.mul_comm]
    rw [hf, List.sum_eq_foldl]
  refine ⟨rfl, _, rfl, rfl, hsum, ?_⟩
  exact dictGet_dictSet_self _ _ _

/-- Witness for C1 at `sSettle`: one bet of 100 on face 3, dice 3, payout 600,
balance 900 → 1500. -/
theorem settle_pays_and_credits_witness :
    (calculate_results sSettle 1 9 3).1.1 = true ∧
    ∃ out, (calculate_results sSettle 1 9 3).1.2.2 = some out ∧
      out.total_winnings = 600 ∧
      dictGet 1 (calculate_results sSettle 1 9 3).2.users =
        some { user_id := 1, username := "testuser1", password_hash := "password123",
               balance := 1500, current_room := some 1 } := by
  obtain ⟨h1, out, h2, h3, h4, h5⟩ := settle_pays_and_credits sSettle 1 9 3
    { round_id := 9, user_id := 1, room_id := 1, bets := [mkBet 70 3 100],
      status := GameRoundStatus.WAITING_RESULTS }
    { user_id := 1, username := "testuser1", password_hash := "password123",
      balance := 900, current_room := some 1 }
    (by decide) (by decide) (Or.inr (by decide)) (by decide)
  refine ⟨h1, out, h2, ?_, ?_⟩
  · rw [h4]
    decide
  · rw [h5, h4]
    decide

/-- C7: settling an existing round whose bets respect the validated limits
(each amount in `[1, 1000]`, at most ten bets) increases the owning room's
jackpot pool by exactly `⌊S / 100⌋` where `S` is the sum of the bet amounts. -/
theorem settle_jackpot_floor (s : GameState) (uid rid : Nat) (d : Int)
    (r : GameRound) (u : User) (cr : Nat) (room : Room)
    (hr : dictGet rid s.active_rounds = some r) (hown : r.user_id = uid)
    (hst : r.status = GameRoundStatus.BETTING_PHASE ∨
           r.status = GameRoundStatus.WAITING_RESULTS)
    (hu : dictGet uid s.users = some u)
    (hcr : u.current_room = some cr) (h0 : cr ≠ 0)
    (hroom : dictGet cr s.rooms = some room)
    (hlen : r.bets.length ≤ 10)
    (hamts : ∀ b ∈ r.bets, 1 ≤ b.amount ∧ b.amount ≤ 1000) :
    dictGet cr (calculate_results s uid rid d).2.rooms =
      some { room with jackpot_pool := room.jackpot_pool + betSum r.bets / 100 } := by
  rw [calculate_results_success s uid rid d r u hr hown hst hu]
  have hcut : jackpotCut (betSum r.bets) = betSum r.bets / 100 := by
    apply jackpotCut_eq
    · calc (0 : Int) = 0 + 0 := by ring
        _ ≤ betSum r.bets := by
          have : ∀ l : List BetData, (∀ b ∈ l, 1 ≤ b.amount) → 0 ≤ betSum l := by
            intro l
            induction l with
            | nil => intro _; simp [betSum]
            | cons b t ih =>
              intro hl
              have h1 : betSum (b :: t) =
                  t.foldl (fun acc b => acc + b.amount) (0 + b.amount) := rfl
              rw [h1, betSum_foldl]
              have hb := hl b (List.mem_cons_self _ _)
              have ht := ih (fun b hb => hl b (List.mem_cons_of_mem _ hb))
              omega
          have := this r.bets (fun b hb => (hamts b hb).1)
          omega
    · have : ∀ l : List BetData, (∀ b ∈ l, b.amount ≤ 1000) →
          betSum l ≤ 1000 * l.length := by
        intro l
        induction l with
        | nil => intro _; simp [betSum]
        | cons b t ih =>
          intro hl
          have h1 : betSum (b :: t) =
              t.foldl (fun acc b => acc + b.amount) (0 + b.amount) := rfl
          rw [h1, betSum_foldl]
          have hb := hl b (List.mem_cons_self _ _)
          have ht := ih (fun b hb => hl b (List.mem_cons_of_mem _ hb))
          simp only [List.length_cons]
          push_cast
          omega
      have h1 := this r.bets (fun b hb => (hamts b hb).2)
      have h2 : (r.bets.length : Int) ≤ 10 := by exact_mod_cast hlen
      omega
  simp only [hcr, if_neg h0, hroom, hcut]
  exact dictGet_dictSet_self _ _ _

/-- Witness for C7 at `sSettle`: S = 100, jackpot increment 1. -/
theorem settle_jackpot_floor_witness :
    dictGet 1 (calculate_results sSettle 1 9 3).2.rooms =
      some { room_id := 1, name := "Room 1", max_capacity := 50,
             current_players := [], jackpot_pool := 1 } := by
  have h := settle_jackpot_floor sSettle 1 9 3
    { round_id := 9, user_id := 1, room_id := 1, bets := [mkBet 70 3 100],
      status := GameRoundStatus.WAITING_RESULTS }
    { user_id := 1, username := "testuser1", password_hash := "password123",
      balance := 900, current_room := some 1 }
    1
    { room_id := 1, name := "Room 1", max_capacity := 50 }
    (by decide) (by decide) (Or.inr (by decide)) (by decide) (by decide) (by decide)
    (by decide) (by decide) (by decide)
  rw [h]
  decide

/-! ## C8: rollover at nine bets -/

theorem dictGet_append {α : Type} (k : Nat) :
    ∀ (l1 rest : List (Nat × α)), k ∉ l1.map Prod.fst →
      dictGet k (l1 ++ rest) = dictGet k rest := by
  intro l1
  induction l1 with
  | nil => intro rest _; rfl
  | cons hd t ih =>
    intro rest hnot
    obtain ⟨k0, v0⟩ := hd
    simp only [List.map_cons, List.mem_cons] at hnot
    push_neg at hnot
    simp only [List.cons_append, dictGet, if_neg (Ne.symm hnot.1 : ¬ k0 = k)]
    exact ih rest hnot.2

/-- When the first BETTING round of the user holds at least nine bets, the scan
rolls it over: the round is finished in place and the rest of the index is kept. -/
theorem scanBetting_rolled_of_find (uid : Nat) :
    ∀ (l : List (Nat × GameRound)) (k : Nat) (r : GameRound),
      l.find? (isBettingOf uid) = some (k, r) → 9 ≤ r.bets.length →
      ∃ l1 l2, l = l1 ++ (k, r) :: l2 ∧
        (∀ p ∈ l1, ¬ (isBettingOf uid p = true)) ∧
        scanBetting uid l = ScanOut.rolled (l1 ++ (k, r.finish_betting) :: l2) := by
  intro l
  induction l with
  | nil =>
    intro k r h _
    simp at h
  | cons hd t ih =>
    intro k r h h9
    obtain ⟨k0, r0⟩ := hd
    by_cases hb : isBettingOf uid (k0, r0) = true
    · rw [List.find?_cons_of_pos _ hb] at h
      injection h with e
      injection e with e1 e2
      have e1' := e1.symm
      have e2' := e2.symm
      subst e1'
      subst e2'
      refine ⟨[], t, rfl, by simp, ?_⟩
      simp [scanBetting, hb, h9]
    · rw [List.find?_cons_of_neg _ hb] at h
      obtain ⟨l1, l2, hdec, hl1, hscan⟩ := ih k r h h9
      refine ⟨(k0, r0) :: l1, l2, by rw [hdec]; rfl, ?_, ?_⟩
      · intro p hp
        rcases List.mem_cons.mp hp with rfl | hp'
        · exact hb
        · exact hl1 p hp'
      · simp [scanBetting, hb, hscan]

/-- C8: an 11th bet without an explicit round id, while the user's BETTING
round holds exactly nine bets, finishes that round in place (its nine bets are
retained under AWAITING_RESULTS) and lands the new bet in a freshly created
BETTING round. -/
theorem rollover_at_nine (s : GameState) (uid : Nat) (face amount : Int)
    (frR frB k : Nat) (r : GameRound) (u : User) (cr : Nat)
    (hu : dictGet uid s.users = some u)
    (hcr : u.current_room = some cr) (h0 : cr ≠ 0)
    (h1 : ¬ (face < 1 ∨ 6 < face)) (h2 : ¬ (amount < 1 ∨ 1000 < amount))
    (h3 : ¬ u.balance < amount)
    (hfind : s.active_rounds.find? (isBettingOf uid) = some (k, r))
    (hlen : r.bets.length = 9)
    (huniq : ∀ p ∈ s.active_rounds, isBettingOf uid p = true → p = (k, r))
    (hkeys : (s.active_rounds.map Prod.fst).Nodup)
    (hfresh : dictGet frR s.active_rounds = none) :
    (place_bet s uid face amount none frR frB).1 =
      (true, "Bet placed successfully", some frB) ∧
    dictGet k (place_bet s uid face amount none frR frB).2.active_rounds =
      some { r with status := GameRoundStatus.WAITING_RESULTS } ∧
    dictGet frR (place_bet s uid face amount none frR frB).2.active_rounds =
      some { round_id := frR, user_id := uid, room_id := cr,
             bets := [{ bet_id := frB, user_id := uid, round_id := frR,
                        dice_face := face, amount := amount }],
             status := GameRoundStatus.BETTING_PHASE } := by
  obtain ⟨l1, l2, hdec, hl1, hscan⟩ :=
    scanBetting_rolled_of_find uid s.active_rounds k r hfind (by omega)
  have hkeysd := hkeys
  rw [hdec] at hkeysd
  simp only [List.map_append, List.map_cons] at hkeysd
  have hknotl1 : k ∉ l1.map Prod.fst := fun hmem =>
    (List.disjoint_of_nodup_append hkeysd) hmem (List.mem_cons_self _ _)
  have hknotl2 : k ∉ l2.map Prod.fst := by
    have h2' := (List.nodup_append.mp hkeysd).2.1
    exact (List.nodup_cons.mp h2').1
  have hkeq : (l1 ++ (k, r.finish_betting) :: l2).map Prod.fst =
      s.active_rounds.map Prod.fst := by
    rw [hdec]
    simp
  have hfindnone :
      (l1 ++ (k, r.finish_betting) :: l2).find? (isBettingOf uid) = none := by
    rw [List.find?_eq_none]
    intro p hp
    rcases List.mem_append.mp hp with hp1 | hp1
    · exact fun hpred => (hl1 p hp1) hpred
    · rcases List.mem_cons.mp hp1 with rfl | hp2
      · simp [isBettingOf, GameRound.finish_betting]
      · intro hpred
        have hmem : p ∈ s.active_rounds := by
          rw [hdec]
          exact List.mem_append_right _ (List.mem_cons_of_mem _ hp2)
        have hpe := huniq p hmem hpred
        rw [hpe] at hp2
        exact hknotl2 (List.mem_map_of_mem Prod.fst hp2)
  have hfreshl : dictGet frR (l1 ++ (k, r.finish_betting) :: l2) = none := by
    rw [dictGet_none_iff, hkeq]
    exact dictGet_none_iff.mp hfresh
  have hkne : k ≠ frR := by
    intro e
    apply dictGet_none_iff.mp hfresh
    rw [← e, hdec]
    simp
  have hg : get_or_create_active_round s uid frR =
      GameState.create_game_round
        { s with active_rounds := l1 ++ (k, r.finish_betting) :: l2 } uid frR := by
    unfold get_or_create_active_round
    rw [hscan]
  have hcreate : GameState.create_game_round
      { s with active_rounds := l1 ++ (k, r.finish_betting) :: l2 } uid frR =
      (some (frR, { round_id := frR, user_id := uid, room_id := cr }),
       { s with active_rounds :=
           (dictSet frR ({ round_id := frR, user_id := uid, room_id := cr } : GameRound)
             (l1 ++ (k, r.finish_betting) :: l2)) }) := by
    simp only [GameState.create_game_round, hu, hcr, hfindnone, if_neg h0]
  have heq : place_bet s uid face amount none frR frB =
      placeBetFinish
        { s with active_rounds :=
            (dictSet frR ({ round_id := frR, user_id := uid, room_id := cr } : GameRound)
              (l1 ++ (k, r.finish_betting) :: l2)) }
        u uid face amount frR { round_id := frR, user_id := uid, room_id := cr } frB := by
    simp [place_bet, hu, h1, h2, h3, hg, hcreate]
  have hsucc : (placeBetFinish
      { s with active_rounds :=
          (dictSet frR ({ round_id := frR, user_id := uid, room_id := cr } : GameRound)
            (l1 ++ (k, r.finish_betting) :: l2)) }
      u uid face amount frR { round_id := frR, user_id := uid, room_id := cr } frB).1.1 =
      true :=
    placeBetFinish_true _ _ _ _ _ _ _ _ rfl (by simp)
  have hfin := placeBetFinish_success _ _ _ _ _ _ _ _ hsucc
  rw [heq, hfin]
  refine ⟨rfl, ?_, ?_⟩
  · show dictGet k (dictSet frR _ (dictSet frR _ (l1 ++ (k, r.finish_betting) :: l2))) = _
    rw [dictGet_dictSet_ne _ _ hkne, dictGet_dictSet_ne _ _ hkne,
      dictGet_append k l1 _ hknotl1]
    simp [dictGet, GameRound.finish_betting]
  · show dictGet frR (dictSet frR _ _) = _
    rw [dictGet_dictSet_self]
    rfl

/-- Witness for C8 at `sNine`: round 9 holds nine bets; the tenth bet without a
round id finishes round 9 and lands in fresh round 200. -/
theorem rollover_at_nine_witness :
    (place_bet sNine 1 3 50 none 200 201).1 =
      (true, "Bet placed successfully", some 201) ∧
    dictGet 9 (place_bet sNine 1 3 50 none 200 201).2.active_rounds =
      some { round_id := 9, user_id := 1, room_id := 1,
             bets := (List.range 9).map (fun i => mkBet (20 + i) 2 10),
             status := GameRoundStatus.WAITING_RESULTS } ∧
    dictGet 200 (place_bet sNine 1 3 50 none 200 201).2.active_rounds =
      some { round_id := 200, user_id := 1, room_id := 1,
             bets := [{ bet_id := 201, user_id := 1, round_id := 200,
                        dice_face := 3, amount := 50 }],
             status := GameRoundStatus.BETTING_PHASE } :=
  rollover_at_nine sNine 1 3 50 200 201 9
    { round_id := 9, user_id := 1, room_id := 1,
      bets := (List.range 9).map (fun i => mkBet (20 + i) 2 10),
      status := GameRoundStatus.BETTING_PHASE }
    { user_id := 1, username := "testuser1", password_hash := "password123",
      balance := 1000, current_room := some 1 }
    1
    (by decide) (by decide) (by decide) (by decide) (by decide) (by decide)
    (by decide) (by decide) (by decide) (by decide) (by decide)

/-! ## Invariant preservation (C3, C4) -/

theorem balances_dictSet {l : List (Nat × User)} {k : Nat} {u' : User}
    (hall : ∀ p ∈ l, 0 ≤ p.2.balance) (hb : 0 ≤ u'.balance) :
    ∀ p ∈ dictSet k u' l, 0 ≤ p.2.balance := by
  intro p hp
  rcases mem_dictSet hp with rfl | hp'
  · exact hb
  · exact hall p hp'

theorem pairwise_replace_all {α : Type} {R : α → α → Prop} {l1 l2 : List α} {x x' : α}
    (hrel : ∀ q, R x' q ∧ R q x') (h : (l1 ++ x :: l2).Pairwise R) :
    (l1 ++ x' :: l2).Pairwise R := by
  rw [List.pairwise_append] at h ⊢
  obtain ⟨h1, h2, h3⟩ := h
  rcases List.pairwise_cons.mp h2 with ⟨-, h2t⟩
  refine ⟨h1, List.pairwise_cons.mpr ⟨fun q hq => (hrel q).1, h2t⟩, ?_⟩
  intro a ha b hb
  rcases List.mem_cons.mp hb with rfl | hb'
  · exact (hrel a).2
  · exact h3 a ha b (List.mem_cons_of_mem _ hb')

/-- `Inv` after a state whose rooms changed but users kept their balances and
the round index is untouched. -/
theorem inv_users_rooms {s : GameState} {users' : List (Nat × User)}
    {rooms' : List (Nat × Room)}
    (h : Inv s) (hus : ∀ p ∈ users', 0 ≤ p.2.balance) :
    Inv { s with users := users', rooms := rooms' } := by
  obtain ⟨hb, ha, ho, hk⟩ := h
  exact ⟨hus, ha, ho, hk⟩

theorem inv_join (s : GameState) (uid rid : Nat) (h : Inv s) :
    Inv (s.join_room uid rid).2 := by
  obtain ⟨hb, ha, ho, hk⟩ := h
  rcases hu : dictGet uid s.users with _ | user
  · rcases hr : dictGet rid s.rooms with _ | room
    · simpa [GameState.join_room, hu, hr] using ⟨hb, ha, ho, hk⟩
    · simpa [GameState.join_room, hu, hr] using ⟨hb, ha, ho, hk⟩
  rcases hr : dictGet rid s.rooms with _ | room
  · simpa [GameState.join_room, hu, hr] using ⟨hb, ha, ho, hk⟩
  have hstep : s.join_room uid rid =
      (match ((dictGet rid (leaveCurrentRooms s user uid)).getD room).add_player uid with
       | (true, room2) =>
         (true, { s with rooms := dictSet rid room2 (leaveCurrentRooms s user uid),
                         users := dictSet uid { user with current_room := some rid } s.users })
       | (false, _) => (false, { s with rooms := leaveCurrentRooms s user uid })) := by
    simp [GameState.join_room, hu, hr]
  rcases hap : ((dictGet rid (leaveCurrentRooms s user uid)).getD room).add_player uid with
    ⟨b, room2⟩
  rw [hap] at hstep
  cases b with
  | true =>
    rw [hstep]
    refine inv_users_rooms ⟨hb, ha, ho, hk⟩ ?_
    exact balances_dictSet hb (hb (uid, user) (dictGet_mem hu))
  | false =>
    rw [hstep]
    exact inv_users_rooms ⟨hb, ha, ho, hk⟩ hb

theorem inv_leave (s : GameState) (uid : Nat) (h : Inv s) :
    Inv (s.leave_room uid) := by
  obtain ⟨hb, ha, ho, hk⟩ := h
  rcases hu : dictGet uid s.users with _ | user
  · simpa [GameState.leave_room, hu] using ⟨hb, ha, ho, hk⟩
  rcases hcr : user.current_room with _ | cr
  · simpa [GameState.leave_room, hu, hcr] using ⟨hb, ha, ho, hk⟩
  by_cases h0 : cr = 0
  · simpa [GameState.leave_room, hu, hcr, h0] using ⟨hb, ha, ho, hk⟩
  have hstep : s.leave_room uid =
      { s with
          rooms := match dictGet cr s.rooms with
            | some room => dictSet cr (room.remove_player uid) s.rooms
            | none => s.rooms,
          users := dictSet uid { user with current_room := none } s.users } := by
    simp [GameState.leave_room, hu, hcr, h0]
  rw [hstep]
  refine inv_users_rooms ⟨hb, ha, ho, hk⟩ ?_
  exact balances_dictSet hb (hb (uid, user) (dictGet_mem hu))

theorem authScan_balances (username password : String) (now fresh : Nat) :
    ∀ (l : List (Nat × User)) (res : Option User) (l' : List (Nat × User)),
      authScan username password now fresh l = some (res, l') →
      (∀ p ∈ l, 0 ≤ p.2.balance) → ∀ p ∈ l', 0 ≤ p.2.balance := by
  intro l
  induction l with
  | nil =>
    intro res l' h _
    simp [authScan] at h
  | cons hd t ih =>
    intro res l' h hall
    obtain ⟨k0, u0⟩ := hd
    have hhd := hall (k0, u0) (List.mem_cons_self _ _)
    have htl : ∀ p ∈ t, 0 ≤ p.2.balance :=
      fun p hp => hall p (List.mem_cons_of_mem _ hp)
    by_cases hc : u0.username = username ∧ u0.verify_password password = true
    · by_cases hlive : u0.session_token.isSome ∧ ¬ u0.is_session_expired now = true
      · simp only [authScan, if_pos hc, if_pos hlive] at h
        injection h with e
        injection e with e1 e2
        subst e2
        intro p hp
        exact hall p hp
      · simp only [authScan, if_pos hc, if_neg hlive] at h
        injection h with e
        injection e with e1 e2
        subst e2
        intro p hp
        rcases List.mem_cons.mp hp with rfl | hp'
        · exact hhd
        · exact htl p hp'
    · simp only [authScan, if_neg hc] at h
      rcases hs : authScan username password now fresh t with _ | pr
      · rw [hs] at h
        cases h
      · obtain ⟨res0, t'⟩ := pr
        rw [hs] at h
        injection h with e
        injection e with e1 e2
        subst e2
        intro p hp
        rcases List.mem_cons.mp hp with rfl | hp'
        · exact hhd
        · exact ih res0 t' hs htl p hp'

theorem inv_auth (s : GameState) (username password : String) (now fresh : Nat)
    (h : Inv s) : Inv (s.authenticate_user username password now fresh).2 := by
  obtain ⟨hb, ha, ho, hk⟩ := h
  unfold GameState.authenticate_user
  rcases hs : authScan username password now fresh s.users with _ | pr
  · exact ⟨hb, ha, ho, hk⟩
  · obtain ⟨res, users1⟩ := pr
    exact ⟨authScan_balances username password now fresh s.users res users1 hs hb,
      ha, ho, hk⟩

theorem inv_clear (s : GameState) (uid : Nat) (h : Inv s) :
    Inv (clearSession s uid) := by
  obtain ⟨hb, ha, ho, hk⟩ := h
  unfold clearSession
  rcases hu : dictGet uid s.users with _ | u
  · exact ⟨hb, ha, ho, hk⟩
  · exact ⟨balances_dictSet hb (hb (uid, u) (dictGet_mem hu)), ha, ho, hk⟩

theorem inv_finish_round (s : GameState) (rid : Nat) (h : Inv s) :
    Inv (s.finish_game_round rid) := by
  obtain ⟨hb, ha, ho, hk⟩ := h
  have hsub := dictPop_sublist rid s.active_rounds
  refine ⟨hb, ?_, ho.sublist hsub, hk.sublist (hsub.map Prod.fst)⟩
  intro p hp
  exact ha p (hsub.subset hp)

theorem inv_create (s : GameState) (uid fresh : Nat)
    (hfresh : dictGet fresh s.active_rounds = none) (h : Inv s) :
    Inv (s.create_game_round uid fresh).2 := by
  obtain ⟨hb, ha, ho, hk⟩ := h
  rcases create_game_round_spec s uid fresh with hc | ⟨k, r, hc, -⟩ | ⟨cr, hc, hfind⟩
  · rw [hc]
    exact ⟨hb, ha, ho, hk⟩
  · rw [hc]
    exact ⟨hb, ha, ho, hk⟩
  · rw [hc]
    rw [dictSet_of_absent _ hfresh]
    have hnone : ∀ p ∈ s.active_rounds, ¬ (isBettingOf uid p = true) := by
      intro p hp hpred
      rw [List.find?_eq_none] at hfind
      exact hfind p hp hpred
    refine ⟨hb, ?_, ?_, ?_⟩
    · intro p hp
      rcases List.mem_append.mp hp with hp' | hp'
      · exact ha p hp'
      · intro b hbmem
        simp only [List.mem_singleton] at hp'
        subst hp'
        simp at hbmem
    · simp only [oneBetting]
      rw [List.pairwise_append]
      refine ⟨ho, by simp, ?_⟩
      intro a hamem b hbmem
      simp only [List.mem_singleton] at hbmem
      subst hbmem
      intro hcontra
      obtain ⟨he1, he2, he3⟩ := hcontra
      exact hnone a hamem (by simp [isBettingOf, he2, he1])
    · simp only [roundKeysOK]
      rw [List.map_append]
      simp only [List.map_cons, List.map_nil]
      rw [List.nodup_append]
      refine ⟨hk, by simp, ?_⟩
      intro a hamem
      simp only [List.mem_singleton]
      intro he
      subst he
      exact (dictGet_none_iff.mp hfresh) hamem

theorem inv_finishBetting (s : GameState) (uid rid : Nat) (h : Inv s) :
    Inv (finish_betting s uid rid).2 := by
  obtain ⟨hb, ha, ho, hk⟩ := h
  rcases hr : dictGet rid s.active_rounds with _ | r
  · simpa [finish_betting, hr] using ⟨hb, ha, ho, hk⟩
  by_cases hown : r.user_id ≠ uid
  · simpa [finish_betting, hr, hown] using ⟨hb, ha, ho, hk⟩
  by_cases hst : r.status ≠ GameRoundStatus.BETTING_PHASE
  · by_cases hw : r.status = GameRoundStatus.WAITING_RESULTS
    · simpa [finish_betting, hr, hown, hst, hw] using ⟨hb, ha, ho, hk⟩
    · simpa [finish_betting, hr, hown, hst, hw] using ⟨hb, ha, ho, hk⟩
  by_cases hemp : r.bets.isEmpty
  · simpa [finish_betting, hr, hown, hst, hemp] using ⟨hb, ha, ho, hk⟩
  have hstep : (finish_betting s uid rid).2 =
      { s with active_rounds := dictSet rid r.finish_betting s.active_rounds } := by
    simp [finish_betting, hr, hown, hst, hemp]
  rw [hstep]
  refine ⟨hb, ?_, ?_, ?_⟩
  · intro p hp
    rcases mem_dictSet hp with rfl | hp'
    · exact ha (rid, r) (dictGet_mem hr)
    · exact ha p hp'
  · refine pairwise_dictSet_of_rel (fun q => ?_) ho
    constructor
    · intro hcontra
      exact absurd hcontra.2.1 (by simp [GameRound.finish_betting])
    · intro hcontra
      exact absurd hcontra.2.2 (by simp [GameRound.finish_betting])
  · simp only [roundKeysOK]
    rw [keys_dictSet_of_mem hr]
    exact hk

theorem inv_placeBetFinish (s : GameState) (u : User) (uid : Nat)
    (face amount : Int) (k : Nat) (r : GameRound) (frB : Nat)
    (_hu : dictGet uid s.users = some u)
    (hr : dictGet k s.active_rounds = some r)
    (hamt : ¬ (amount < 1 ∨ 1000 < amount)) (hbal : ¬ u.balance < amount)
    (h : Inv s) : Inv (placeBetFinish s u uid face amount k r frB).2 := by
  obtain ⟨hb, ha, ho, hk⟩ := h
  unfold placeBetFinish
  split_ifs with hst hlen
  · exact ⟨hb, ha, ho, hk⟩
  · exact ⟨hb, ha, ho, hk⟩
  refine ⟨?_, ?_, ?_, ?_⟩
  · have hb' : (0 : Int) ≤ u.balance - amount := by omega
    exact balances_dictSet hb hb'
  · intro p hp
    rcases mem_dictSet hp with rfl | hp'
    · intro b hbm
      simp only [GameRound.add_bet] at hbm
      rcases List.mem_append.mp hbm with hbm' | hbm'
      · exact ha (k, r) (dictGet_mem hr) b hbm'
      · simp only [List.mem_singleton] at hbm'
        subst hbm'
        show (1 : Int) ≤ amount
        omega
    · exact ha p hp'
  · refine pairwise_dictSet_of_imp hr (fun q hq => ?_) (fun q hq => ?_) ho
    · simp only [bettingRel, GameRound.add_bet] at hq ⊢
      exact hq
    · simp only [bettingRel, GameRound.add_bet] at hq ⊢
      exact hq
  · simp only [roundKeysOK]
    rw [keys_dictSet_of_mem hr]
    exact hk

/-- The keys of the index are untouched by a rolled scan. -/
theorem scanBetting_rolled_keys {uid : Nat} {l l' : List (Nat × GameRound)}
    (h : scanBetting uid l = ScanOut.rolled l') :
    l'.map Prod.fst = l.map Prod.fst := by
  obtain ⟨l1, k, r, l2, he1, he2, -, -, -⟩ := scanBetting_rolled uid l l' h
  subst he1
  subst he2
  simp

theorem inv_rolled (s : GameState) (uid : Nat) (l' : List (Nat × GameRound))
    (hscan : scanBetting uid s.active_rounds = ScanOut.rolled l') (h : Inv s) :
    Inv { s with active_rounds := l' } := by
  obtain ⟨hb, ha, ho, hk⟩ := h
  obtain ⟨l1, k0, r0, l2, hdec, hdec', -, -, -⟩ :=
    scanBetting_rolled uid s.active_rounds l' hscan
  subst hdec'
  simp only [amountsOK] at ha
  simp only [oneBetting] at ho
  simp only [roundKeysOK] at hk
  rw [hdec] at ha ho hk
  refine ⟨hb, ?_, ?_, ?_⟩
  · intro p hp
    rcases List.mem_append.mp hp with hp' | hp'
    · exact ha p (List.mem_append_left _ hp')
    · rcases List.mem_cons.mp hp' with rfl | hp''
      · intro b hbm
        exact ha (k0, r0) (List.mem_append_right _ (List.mem_cons_self _ _)) b hbm
      · exact ha p (List.mem_append_right _ (List.mem_cons_of_mem _ hp''))
  · exact pairwise_replace_all
      (fun q => ⟨fun hc => absurd hc.2.1 (by simp [GameRound.finish_betting]),
                 fun hc => absurd hc.2.2 (by simp [GameRound.finish_betting])⟩) ho
  · simp only [roundKeysOK, List.map_append, List.map_cons] at hk ⊢
    exact hk

theorem inv_place (s : GameState) (uid : Nat) (face amount : Int)
    (orid : Option Nat) (frR frB : Nat)
    (hfresh : dictGet frR s.active_rounds = none) (h : Inv s) :
    Inv (place_bet s uid face amount orid frR frB).2 := by
  rcases hu : dictGet uid s.users with _ | u
  · simpa [place_bet, hu] using h
  by_cases h1 : face < 1 ∨ 6 < face
  · simpa [place_bet, hu, h1] using h
  by_cases h2 : amount < 1 ∨ 1000 < amount
  · simpa [place_bet, hu, h1, h2] using h
  by_cases h3 : u.balance < amount
  · simpa [place_bet, hu, h1, h2, h3] using h
  cases orid with
  | some rid =>
    rcases hr : dictGet rid s.active_rounds with _ | r
    · simpa [place_bet, hu, h1, h2, h3, hr] using h
    by_cases hown : r.user_id = uid
    · have heq : place_bet s uid face amount (some rid) frR frB =
          placeBetFinish s u uid face amount rid r frB := by
        simp [place_bet, hu, h1, h2, h3, hr, hown]
      rw [heq]
      exact inv_placeBetFinish s u uid face amount rid r frB hu hr h2 h3 h
    · simpa [place_bet, hu, h1, h2, h3, hr, hown] using h
  | none =>
    cases hsc : scanBetting uid s.active_rounds with
    | ret k r =>
      have hg : get_or_create_active_round s uid frR = (some (k, r), s) := by
        unfold get_or_create_active_round
        rw [hsc]
      have heq : place_bet s uid face amount none frR frB =
          placeBetFinish s u uid face amount k r frB := by
        simp [place_bet, hu, h1, h2, h3, hg]
      obtain ⟨hm, -, -⟩ := scanBetting_ret uid s.active_rounds k r hsc
      have hr : dictGet k s.active_rounds = some r := nodup_keys_dictGet h.2.2.2 hm
      rw [heq]
      exact inv_placeBetFinish s u uid face amount k r frB hu hr h2 h3 h
    | rolled l' =>
      have hinv' : Inv { s with active_rounds := l' } := inv_rolled s uid l' hsc h
      have hg : get_or_create_active_round s uid frR =
          GameState.create_game_round { s with active_rounds := l' } uid frR := by
        unfold get_or_create_active_round
        rw [hsc]
      have hfresh' : dictGet frR l' = none := by
        rw [dictGet_none_iff, scanBetting_rolled_keys hsc]
        exact dictGet_none_iff.mp hfresh
      rcases create_game_round_spec { s with active_rounds := l' } uid frR with
        hc | ⟨k, r, hc, hbet, hmem⟩ | ⟨cr, hc, hfind⟩
      · have heq : place_bet s uid face amount none frR frB =
            ((false, "Failed to create game round", none),
             ({ s with active_rounds := l' } : GameState)) := by
          simp [place_bet, hu, h1, h2, h3, hg, hc]
        rw [heq]
        exact hinv'
      · have heq : place_bet s uid face amount none frR frB =
            placeBetFinish { s with active_rounds := l' } u uid face amount k r frB := by
          simp [place_bet, hu, h1, h2, h3, hg, hc]
        rw [heq]
        have hr : dictGet k l' = some r := nodup_keys_dictGet hinv'.2.2.2 hmem
        exact inv_placeBetFinish { s with active_rounds := l' } u uid face amount k r frB
          hu hr h2 h3 hinv'
      · have heq : place_bet s uid face amount none frR frB =
            placeBetFinish
              { s with active_rounds :=
                  (dictSet frR ({ round_id := frR, user_id := uid, room_id := cr } : GameRound) l') }
              u uid face amount frR
              { round_id := frR, user_id := uid, room_id := cr } frB := by
          simp [place_bet, hu, h1, h2, h3, hg, hc]
        rw [heq]
        have hinv'' : Inv ({ s with active_rounds :=
            (dictSet frR ({ round_id := frR, user_id := uid, room_id := cr } : GameRound) l') }) := by
          have := inv_create { s with active_rounds := l' } uid frR hfresh' hinv'
          rw [hc] at this
          exact this
        exact inv_placeBetFinish _ u uid face amount frR _ frB hu
          (dictGet_dictSet_self _ _ _) h2 h3 hinv''
    | missing =>
      have hg : get_or_create_active_round s uid frR =
          GameState.create_game_round s uid frR := by
        unfold get_or_create_active_round
        rw [hsc]
      rcases create_game_round_spec s uid frR with
        hc | ⟨k, r, hc, hbet, hmem⟩ | ⟨cr, hc, hfind⟩
      · have heq : place_bet s uid face amount none frR frB =
            ((false, "Failed to create game round", none), s) := by
          simp [place_bet, hu, h1, h2, h3, hg, hc]
        rw [heq]
        exact h
      · have heq : place_bet s uid face amount none frR frB =
            placeBetFinish s u uid face amount k r frB := by
          simp [place_bet, hu, h1, h2, h3, hg, hc]
        rw [heq]
        have hr : dictGet k s.active_rounds = some r := nodup_keys_dictGet h.2.2.2 hmem
        exact inv_placeBetFinish s u uid face amount k r frB hu hr h2 h3 h
      · have heq : place_bet s uid face amount none frR frB =
            placeBetFinish
              { s with active_rounds :=
                  (dictSet frR ({ round_id := frR, user_id := uid, room_id := cr } : GameRound)
                    s.active_rounds) }
              u uid face amount frR
              { round_id := frR, user_id := uid, room_id := cr } frB := by
          simp [place_bet, hu, h1, h2, h3, hg, hc]
        rw [heq]
        have hinv'' : Inv ({ s with active_rounds :=
            (dictSet frR ({ round_id := frR, user_id := uid, room_id := cr } : GameRound)
              s.active_rounds) }) := by
          have := inv_create s uid frR hfresh h
          rw [hc] at this
          exact this
        exact inv_placeBetFinish _ u uid face amount frR _ frB hu
          (dictGet_dictSet_self _ _ _) h2 h3 hinv''

theorem payouts_nonneg (d : Int) (l : List BetData) (h : ∀ b ∈ l, 1 ≤ b.amount) :
    0 ≤ (l.map (betPayout d)).foldl (· + ·) 0 := by
  rw [← List.sum_eq_foldl]
  apply List.sum_nonneg
  intro x hx
  obtain ⟨b, hbm, rfl⟩ := List.mem_map.mp hx
  unfold betPayout
  split
  · have := h b hbm
    omega
  · omega

theorem inv_settle (s : GameState) (uid rid : Nat) (d : Int) (h : Inv s) :
    Inv (calculate_results s uid rid d).2 := by
  obtain ⟨hb, ha, ho, hk⟩ := h
  rcases hr : dictGet rid s.active_rounds with _ | r0
  · simpa [calculate_results, hr] using ⟨hb, ha, ho, hk⟩
  by_cases hown : r0.user_id ≠ uid
  · simpa [calculate_results, hr, hown] using ⟨hb, ha, ho, hk⟩
  by_cases hst : r0.status ≠ GameRoundStatus.WAITING_RESULTS ∧
      r0.status ≠ GameRoundStatus.BETTING_PHASE
  · simpa [calculate_results, hr, hown, hst] using ⟨hb, ha, ho, hk⟩
  have hrnd : (calculate_results s uid rid d).2.active_rounds =
      dictPop rid s.active_rounds := by
    simp [calculate_results, hr, hown, hst]
  have hbets : (if r0.status = GameRoundStatus.BETTING_PHASE
      then r0.finish_betting else r0).bets = r0.bets := by
    split <;> rfl
  have hus : (calculate_results s uid rid d).2.users = s.users ∨
      ∃ u T, dictGet uid s.users = some u ∧ (0 : Int) ≤ T ∧
        (calculate_results s uid rid d).2.users =
          dictSet uid { u with balance := u.balance + T } s.users := by
    rcases hu : dictGet uid s.users with _ | u
    · left
      simp [calculate_results, hr, hown, hst, hu]
    · right
      refine ⟨u, (r0.bets.map (betPayout d)).foldl (· + ·) 0, rfl, ?_, ?_⟩
      · exact payouts_nonneg d r0.bets
          (fun b hbm => ha (rid, r0) (dictGet_mem hr) b hbm)
      · simp [calculate_results, hr, hown, hst, hu, GameRound.calculate_results, hbets]
  refine ⟨?_, ?_, ?_, ?_⟩
  · intro p hp
    rcases hus with he | ⟨u, T, hu, hT, he⟩
    · rw [he] at hp
      exact hb p hp
    · rw [he] at hp
      rcases mem_dictSet hp with rfl | hp'
      · have hbu : (0 : Int) ≤ u.balance := hb (uid, u) (dictGet_mem hu)
        show (0 : Int) ≤ u.balance + T
        omega
      · exact hb p hp'
  · intro p hp
    rw [hrnd] at hp
    exact ha p ((dictPop_sublist _ _).subset hp)
  · simp only [oneBetting, hrnd]
    exact ho.sublist (dictPop_sublist _ _)
  · simp only [roundKeysOK, hrnd]
    exact hk.sublist ((dictPop_sublist _ _).map _)

theorem inv_step {s t : GameState} (hstep : Step s t) (h : Inv s) : Inv t := by
  cases hstep with
  | join_room uid rid s => exact inv_join s uid rid h
  | leave_room uid s => exact inv_leave s uid h
  | authenticate username password now fresh s => exact inv_auth s username password now fresh h
  | clear_session uid s => exact inv_clear s uid h
  | create_round uid fresh s hfresh => exact inv_create s uid fresh hfresh h
  | finish_round rid s => exact inv_finish_round s rid h
  | place uid face amount orid frR frB s hfresh =>
    exact inv_place s uid face amount orid frR frB hfresh h
  | finishBetting uid rid s => exact inv_finishBetting s uid rid h
  | settle uid rid d s => exact inv_settle s uid rid d h

theorem inv_init : Inv initState := by
  refine ⟨?_, ?_, ?_, ?_⟩
  · simp only [balancesOK, initState, defaultUsers]
    decide
  · intro p hp
    simp [initState] at hp
  · exact List.Pairwise.nil
  · simp [roundKeysOK, initState]

theorem inv_reachable {s : GameState} (h : Reachable s) : Inv s := by
  induction h with
  | init => exact inv_init
  | step hr hstep ih => exact inv_step hstep ih

/-- C3: in every state reachable from the seeded initial state by engine and
store operations, every stored user balance is non-negative. -/
theorem balances_nonneg (s : GameState) (h : Reachable s) :
    ∀ p ∈ s.users, 0 ≤ p.2.balance :=
  (inv_reachable h).1

/-- Witness for C3 at the seeded initial state. -/
theorem balances_nonneg_witness :
    0 ≤ (({ user_id := 1, username := "testuser1", password_hash := "password123",
            balance := 1000 } : User)).balance :=
  balances_nonneg initState Reachable.init
    (1, { user_id := 1, username := "testuser1", password_hash := "password123",
          balance := 1000 })
    (by decide)

/-- C4: in every state reachable from the seeded initial state by engine and
store operations, at most one round per user is in BETTING status across the
active-round index. -/
theorem one_betting_per_user (s : GameState) (h : Reachable s) : oneBetting s :=
  (inv_reachable h).2.2.1

/-- Witness for C4 at the seeded initial state. -/
theorem one_betting_per_user_witness : oneBetting initState :=
  one_betting_per_user initState Reachable.init

end DiceGame
